import Mathlib

/-!
# Myweb: the connection cycle of `server_base.hpp`

A shallow embedding of `Myweb::ServerBase` (`src/include/server_base.hpp`):
`parse_request`, `process_request_and_respond`, `respond` and `start`, and of
the handlers and registrations of `start_server`
(`src/include/test/handler.hpp`).

* A `std::string` is a list of characters, one per byte.
* A `std::istream` over the read buffer is the list of unread bytes together
  with its `good()` flag.
* The asynchronous operations of the socket are not part of the repository.
  One connection cycle is described by a `Socket` record holding what
  `async_read_until` reported, the bytes that arrive afterwards and whether
  `async_write` succeeds.  What the cycle does is recorded as a list of
  `Event`s, in the order in which the code performs them.
* `std::regex_match` on the two fixed patterns of `parse_request` is
  translated by hand (`match_request_line`, `match_header_line`); on route
  patterns, which are supplied by the application, it is a parameter
  (`Lib.regex_match`), as is `std::stof` (`Lib.stof`).
* A `resource_type` map is the list of its entries in ascending order of the
  pattern strings; `register` is the statement `table[pattern][method] = h`.
* The file system that the default handler reads and the order in which an
  `unordered_map` is visited are parameters of the handlers.
-/

namespace Myweb

/-- A `std::string`: a sequence of bytes, written as characters. -/
abbrev Str := List Char

/-- The line end `"\r\n"` of the wire format. -/
def CRLF : Str := ['\r', '\n']

/-! ## Data model -/

/-- The map `std::unordered_map<std::string, std::string>` of a request,
as an association list without repeated keys. -/
abbrev HeaderMap := List (Str × Str)

/-- The call `header.count(k)`: one when the key is present, zero otherwise. -/
def HeaderMap.count (h : HeaderMap) (k : Str) : Nat :=
  if (h.lookup k).isSome then 1 else 0

/-- The assignment `header[k] = v`: the entry of `k` is created or overwritten. -/
def HeaderMap.assign (h : HeaderMap) (k v : Str) : HeaderMap :=
  (k, v) :: h.filter (fun e => e.1 != k)

/-- The read access `header[k]` (an absent key gives the empty string). -/
def HeaderMap.at (h : HeaderMap) (k : Str) : Str :=
  (h.lookup k).getD []

/-- The `struct Request`.  The field `content` is `none` for a null pointer and
`some bs` for a stream that yields the bytes `bs`; `path_match` lists the
sub-matches of the route pattern, number 0 first. -/
structure Request where
  method : Str
  path : Str
  http_version : Str
  content : Option Str
  header : HeaderMap
  path_match : List Str
deriving DecidableEq

/-- A default-constructed `Request`. -/
def Request.empty : Request :=
  { method := [], path := [], http_version := [], content := none, header := [],
    path_match := [] }

/-- A handler `std::function<void(std::ostream&, Request&)>`, given by the
bytes it writes to the response stream for a request; `none` when it does not
return, because its body has undefined behaviour on the request or a loop in it
does not end.  A handler is taken not to throw and to leave the fields of the
request as they are. -/
abbrev Handler := Request → Option Str

/-- One entry of a `resource_type` map: the pattern string and the table from
method to handler. -/
abbrev Route := Str × List (Str × Handler)

/-- A `resource_type` map, as the list of its entries in iteration order. -/
abbrev resource_type := List Route

/-! ## Library functions -/

/-- The value of a `float`: a finite value, given exactly, an infinity or a
NaN. -/
inductive FloatVal where
  | finite (q : ℚ)
  | pos_inf
  | neg_inf
  | nan

/-- The comparison `x > c` of a `float` with a finite constant. -/
def FloatVal.exceeds (x : FloatVal) (c : ℚ) : Bool :=
  match x with
  | .finite q => decide (c < q)
  | .pos_inf => true
  | .neg_inf => false
  | .nan => false

/-- The library functions whose argument is not fixed by the repository:
`regex_match s e` is `std::regex_match(s, sm, std::regex(e))` and gives the
sub-matches on success (the route patterns `e` are taken to be well-formed
regular expressions); `stof s` is the `float` returned by `std::stof(s)`, or
`none` when it throws. -/
structure Lib where
  regex_match : Str → Str → Option (List Str)
  stof : Str → Option FloatVal

/-- The C function `isspace` in the "C" locale. -/
def isspace (c : Char) : Bool :=
  c == ' ' || c == '\t' || c == '\n' || c == '\x0b' || c == '\x0c' || c == '\r'

/-- The value of a run of decimal digits. -/
def digits_value (ds : Str) : Nat :=
  ds.foldl (fun a c => 10 * a + (c.toNat - 48)) 0

/-- The call `std::stoull(s)` (base 10): leading white space is skipped, a sign
is accepted, the longest run of digits is converted.  The result is `none`
when the call throws: `std::invalid_argument` without a digit,
`std::out_of_range` when the digits exceed 64 bits.  A minus sign negates the
value in 64-bit unsigned arithmetic. -/
def stoull (s : Str) : Option Nat :=
  let s1 := s.dropWhile isspace
  let signed : Bool × Str :=
    match s1 with
    | '-' :: t => (true, t)
    | '+' :: t => (false, t)
    | _ => (false, s1)
  let ds := signed.2.takeWhile Char.isDigit
  if ds.isEmpty then none
  else
    let v := digits_value ds
    if 2 ^ 64 ≤ v then none
    else some (if signed.1 then (2 ^ 64 - v) % 2 ^ 64 else v)

/-- Subtraction of two `size_t` values (64 bits, wrapping). -/
def size_sub (a b : Nat) : Nat :=
  (a % 2 ^ 64 + 2 ^ 64 - b % 2 ^ 64) % 2 ^ 64

/-- The `double` constant `1.05` of `respond`: the nearest binary64 value,
`4728779608739021 / 2^52`. -/
def keep_alive_threshold : ℚ := 4728779608739021 / 4503599627370496

/-! ## Streams and lines -/

/-- A `std::istream` over a stream buffer: the unread bytes and `good()`. -/
structure IStream where
  data : Str
  good : Bool
deriving DecidableEq

/-- The call `getline(stream, line)`.  When the stream is not good the sentry
fails and `line` is left as it was.  Otherwise `line` is replaced by the bytes
before the first `'\n'`, which is consumed; without a `'\n'` the rest of the
stream is taken and the stream is no longer good. -/
def getline (stream : IStream) (line : Str) : IStream × Str :=
  if stream.good then
    match stream.data.span (fun c => c != '\n') with
    | (front, _ :: rest) => ({ data := rest, good := true }, front)
    | (front, []) => ({ data := [], good := false }, front)
  else (stream, line)

/-- The call `line.pop_back()`; it is undefined on an empty string (`none`). -/
def pop_back (line : Str) : Option Str :=
  if line.isEmpty then none else some line.dropLast

/-- The match `std::regex_match(line, sub_match, e)` for
`e = "^([^ ]*) ([^ ]*) HTTP/([^ ]*)$"`, giving sub-matches 1, 2 and 3. -/
def match_request_line (line : Str) : Option (Str × Str × Str) :=
  match line.span (fun c => c != ' ') with
  | (m, ' ' :: r) =>
    match r.span (fun c => c != ' ') with
    | (p, ' ' :: 'H' :: 'T' :: 'T' :: 'P' :: '/' :: v) =>
      if v.all (fun c => c != ' ') then some (m, p, v) else none
    | _ => none
  | _ => none

/-- The match `std::regex_match(line, sub_match, e)` for `e = "^([^:]*): ?(.*)$"`,
giving sub-matches 1 and 2.  The dot of an ECMAScript pattern matches neither
`'\n'` nor `'\r'`. -/
def match_header_line (line : Str) : Option (Str × Str) :=
  match line.span (fun c => c != ':') with
  | (name, ':' :: r) =>
    let value := match r with
      | ' ' :: v => v
      | _ => r
    if value.all (fun c => c != '\n' && c != '\r') then some (name, value) else none
  | _ => none

/-- What stops `parse_request` in the embedding: `pop_back` on an empty line
(undefined behaviour in the source), or the recursion budget of the header
loop (shown below never to be reached). -/
inductive Fault where
  | pop_back_empty
  | fuel
deriving DecidableEq

/-- The `do ... while (matched)` loop of `parse_request`, entered with the
stream, the current value of `line` and the request built so far. -/
def parse_headers : Nat → IStream → Str → Request → Except Fault (Request × IStream)
  | 0, _, _, _ => .error .fuel
  | fuel + 1, stream, line, request =>
    match getline stream line with
    | (stream, line) =>
      match pop_back line with
      | none => .error .pop_back_empty
      | some line =>
        match match_header_line line with
        | some (name, value) =>
          parse_headers fuel stream line
            { request with header := request.header.assign name value }
        | none => .ok (request, stream)

/-- The function `parse_request`; it returns the request and the stream as it
leaves it. -/
def parse_request (stream : IStream) : Except Fault (Request × IStream) :=
  match getline stream [] with
  | (stream1, line) =>
    match pop_back line with
    | none => .error .pop_back_empty
    | some line =>
      match match_request_line line with
      | some (m, p, v) =>
        parse_headers (stream.data.length + 2) stream1 line
          { Request.empty with method := m, path := p, http_version := v }
      | none => .ok (Request.empty, stream1)

/-! ## The connection cycle -/

/-- What one connection cycle does, in order. -/
inductive Event where
  /-- The call `async_read` with `transfer_exactly(n)`. -/
  | async_read (n : Nat)
  /-- The handler of entry number `index` of `all_resources` is called. -/
  | handler (index : Nat) (request : Request)
  /-- The call `async_write` with the bytes of the write buffer. -/
  | async_write (bytes : Str)
  /-- The call `process_request_and_respond(socket)` after the write. -/
  | restart
  /-- An exception leaves the continuation (`stoull`, `stof`). -/
  | raise
  /-- The call `pop_back()` on an empty string. -/
  | undefined
  /-- The handler that was called does not return (undefined behaviour in its
  body, or a loop that does not end): nothing is written. -/
  | handler_undefined
deriving DecidableEq

/-- The socket during one cycle: the result of `async_read_until` (`none` for
an error, else the contents of `read_buffer` and `bytes_transferred`), the
bytes that the peer sends after those, and whether `async_write` succeeds. -/
structure Socket where
  read_until : Option (Str × Nat)
  pending : Str
  write_ok : Bool

/-- The loops of `start()`: the entries of `resource`, then those of
`default_resource`. -/
def start (resource default_resource : resource_type) : List Route :=
  resource ++ default_resource

/-- The completion handler of `async_write` in `respond`. -/
def after_write (lib : Lib) (request : Request) (write_ok : Bool) : List Event :=
  if write_ok then
    match lib.stof request.http_version with
    | none => [.raise]
    | some x => if x.exceeds keep_alive_threshold then [.restart] else []
  else []

/-- The `for` loop of `respond`, from entry number `i` on. -/
def respond_from (lib : Lib) (request : Request) (write_ok : Bool) :
    Nat → List Route → List Event
  | _, [] => []
  | i, res_it :: rest =>
    match lib.regex_match request.path res_it.1 with
    | some sm_res =>
      match res_it.2.lookup request.method with
      | some h =>
        let request := { request with path_match := sm_res }
        match h request with
        | some bytes =>
          [.handler i request, .async_write bytes] ++ after_write lib request write_ok
        | none => [.handler i request, .handler_undefined]
      | none => respond_from lib request write_ok (i + 1) rest
    | none => respond_from lib request write_ok (i + 1) rest

/-- The function `respond`. -/
def respond (lib : Lib) (all_resources : List Route) (write_ok : Bool)
    (request : Request) : List Event :=
  respond_from lib request write_ok 0 all_resources

/-- The function `process_request_and_respond`, with the two read completion
handlers. -/
def process_request_and_respond (lib : Lib) (all_resources : List Route)
    (socket : Socket) : List Event :=
  match socket.read_until with
  | none => []
  | some (read_buffer, bytes_transferred) =>
    let total := read_buffer.length
    match parse_request { data := read_buffer, good := true } with
    | .error _ => [.undefined]
    | .ok (request, stream) =>
      let num_additional_bytes := size_sub total bytes_transferred
      if request.header.count "Content-Length".toList > 0 then
        match stoull (request.header.at "Content-Length".toList) with
        | none => [.raise]
        | some n =>
          let len := size_sub n num_additional_bytes
          .async_read len ::
            (if len ≤ socket.pending.length then
              respond lib all_resources socket.write_ok
                { request with content := some (stream.data ++ socket.pending.take len) }
            else [])
      else respond lib all_resources socket.write_ok request


/-! ## Lines on the wire -/

/-- The bytes of a list of lines, each followed by CR LF. -/
def wire_lines : List Str → Str
  | [] => []
  | l :: ls => l ++ CRLF ++ wire_lines ls

/-- The header map obtained by processing lines in order up to the first line
that does not match the header pattern, starting from `h`. -/
def header_of_lines (h : HeaderMap) : List Str → HeaderMap
  | [] => h
  | l :: ls =>
    match match_header_line l with
    | some (name, value) => header_of_lines (h.assign name value) ls
    | none => h

/-- The shape `M SP P SP "HTTP/" V` of a request line, none of `M`, `P`, `V`
containing a space. -/
def RequestLineForm (line M P V : Str) : Prop :=
  ' ' ∉ M ∧ ' ' ∉ P ∧ ' ' ∉ V ∧ line = M ++ ' ' :: (P ++ " HTTP/".toList ++ V)


/-! ## A library instance for the examples -/

/-- The match of a pattern `"^" ++ lit ++ "/?$"` whose `lit` has no special
character: the text `lit`, optionally followed by one `'/'`. -/
def match_literal (lit s : Str) : Option (List Str) :=
  if s = lit ∨ s = lit ++ ['/'] then some [s] else none

/-- The match of the pattern `"^/?(.*)$"`. -/
def match_default (s : Str) : Option (List Str) :=
  let rest := match s with
    | '/' :: t => t
    | _ => s
  if rest.all (fun c => c != '\n' && c != '\r') then some [s, rest] else none

/-- The match of the pattern `"^/match/([0-9a-zA-Z]+)/?$"`. -/
def match_match (s : Str) : Option (List Str) :=
  match s with
  | '/' :: 'm' :: 'a' :: 't' :: 'c' :: 'h' :: '/' :: t =>
    match t.span Char.isAlphanum with
    | (tok, r) =>
      if !tok.isEmpty && (r == [] || r == ['/']) then some [s, tok] else none
  | _ => none

/-- The function `std::regex_match` on the four patterns that `handler.hpp`
registers, translated by hand; it is used with these patterns only. -/
def sample_regex_match (s e : Str) : Option (List Str) :=
  if e = "^/string/?$".toList then match_literal "/string".toList s
  else if e = "^/info/?$".toList then match_literal "/info".toList s
  else if e = "^/match/([0-9a-zA-Z]+)/?$".toList then match_match s
  else if e = "^/?(.*)$".toList then match_default s
  else none

/-- The `float` nearest to `1.1`: `9227469 / 2^23`. -/
def float_1_1 : ℚ := 9227469 / 8388608

/-- The function `std::stof` on the version strings of the examples: `"1.1"` and
`"1.0"` convert to the nearest `float`, the empty string and `"x"` have no
conversion; it is used with these strings only. -/
def sample_stof (s : Str) : Option FloatVal :=
  if s = "1.1".toList then some (.finite float_1_1)
  else if s = "1.0".toList then some (.finite 1)
  else none

/-- The library instance of the examples. -/
def sample_lib : Lib := { regex_match := sample_regex_match, stof := sample_stof }

/-- A handler that writes a tag followed by the request path. -/
def sample_handler (tag : Str) : Handler := fun request => some (tag ++ request.path)

/-- A request with the given method, path and version and nothing else. -/
def sample_request (m p v : Str) : Request :=
  { Request.empty with method := m, path := p, http_version := v }

/-- The routes that can serve a request: the pattern matches the whole path and
the method table has the method. -/
def eligible (lib : Lib) (request : Request) (e : Route) : Bool :=
  (lib.regex_match request.path e.1).isSome && (e.2.lookup request.method).isSome

/-- Whether an event is a handler call. -/
def Event.is_handler : Event → Bool
  | .handler _ _ => true
  | _ => false


/-- A bound on the number of rounds the header loop can still make. -/
def loop_bound (stream : IStream) (line : Str) : Nat :=
  if stream.good then stream.data.length + 2 else line.length + 1

/-! ## The handlers of `handler.hpp` -/

/-- The digits that `operator<<` writes for an unsigned integer. -/
def decimal (n : Nat) : Str := (Nat.repr n).toList

/-- The response that the handlers write for a body: status line, length and
body. -/
def ok_response (body : Str) : Str :=
  "HTTP/1.1 200 OK\r\nContent-Length: ".toList ++ decimal body.length ++ "\r\n\r\n".toList
    ++ body

/-- The extraction `*request.content >> ss.rdbuf()` followed by `ss.str()`, for
a stream that yields `content`.  The extractor builds its sentry as the
arithmetic extractors do (libstdc++, `sentry(*this, false)`), so that leading
white space is skipped before the rest is copied. -/
def extract_to_buffer (content : Str) : Str :=
  content.dropWhile isspace

/-- The handler of `resource["^/string/?$"]["POST"]`; `none` when `content` is a
null pointer, which the handler dereferences. -/
def string_handler : Handler := fun request =>
  request.content.map fun c => ok_response (extract_to_buffer c)

/-- The text that the `/info` handler puts into `content_stream`; `entries` is
the header map in the order in which the `for` loop visits it. -/
def info_body (request : Request) (entries : List (Str × Str)) : Str :=
  "<h1>Request:</h1>".toList ++ request.method ++ " ".toList ++ request.path
    ++ " HTTP/".toList ++ request.http_version ++ "<br>".toList
    ++ (entries.map fun e => e.1 ++ ": ".toList ++ e.2 ++ "<br>".toList).flatten

/-- The handler of `resource["^/info/?$"]["GET"]`; `iter` is the order in which
an `unordered_map` is visited, which the library leaves open. -/
def info_handler (iter : HeaderMap → List (Str × Str)) : Handler :=
  fun request => some (ok_response (info_body request (iter request.header)))

/-- The handler of `resource["^/match/([0-9a-zA-Z]+)/?$"]["GET"]`. -/
def match_handler : Handler :=
  fun request => some (ok_response (request.path_match.getD 1 []))

/-- The value `std::string::npos`. -/
def npos : Nat := 2 ^ 64 - 1

/-- The index of the first `c` in a string, if any. -/
def first_index (c : Char) : Str → Option Nat
  | [] => none
  | x :: xs => if x = c then some 0 else (first_index c xs).map (· + 1)

/-- The call `s.find(c, pos)`. -/
def str_find (c : Char) (s : Str) (pos : Nat) : Nat :=
  match first_index c (s.drop pos) with
  | some i => pos + i
  | none => npos

/-- The call `s.rfind(c)`. -/
def str_rfind (c : Char) (s : Str) : Nat :=
  match first_index c s.reverse with
  | some i => s.length - 1 - i
  | none => npos

/-- The `while` loop of the default handler, entered with `path`, `last_pos` and
`current_pos`; the first argument bounds the number of rounds. -/
def strip_loop : Nat → Str → Nat → Nat → Option Str
  | 0, _, _, _ => none
  | fuel + 1, path, last_pos, current_pos =>
    let pos := str_find '.' path current_pos
    if pos != npos && pos != last_pos then
      strip_loop fuel (path.eraseIdx pos) (size_sub last_pos 1) pos
    else some path

/-- The dot stripping of the default handler applied to `path`. -/
def strip_dots (path : Str) : Option Str :=
  strip_loop (path.length + 1) path (str_rfind '.' path) 0

/-- The file name that the default handler opens. -/
def default_filename (request : Request) : Option Str :=
  (strip_dots (request.path_match.getD 1 [])).map fun path =>
    let filename := "web/".toList ++ path
    if str_find '.' filename 0 == npos then
      (if filename.getLast? != some '/' then filename ++ ['/'] else filename)
        ++ "index.html".toList
    else filename

/-- The handler of `default_resource["^/?(.*)$"]["GET"]`; `fs` gives the bytes
of the file of a name, or `none` when the file cannot be opened.  The first
case of the outer `match` stands for a dot stripping loop that does not end; it
is shown below not to arise. -/
def default_handler (fs : Str → Option Str) : Handler :=
  fun request =>
    match default_filename request with
    | none => none
    | some filename =>
      match fs filename with
      | some bytes => some (ok_response bytes)
      | none =>
        let content := "Could not open file ".toList ++ filename
        some ("HTTP/1.1 400 Bad Request\r\nContent-Length: ".toList
          ++ decimal content.length ++ "\r\n\r\n".toList ++ content)

/-! ## Route registration -/

/-- The order `operator<` of `std::string`: lexicographic on the bytes. -/
def str_lt : Str → Str → Bool
  | [], [] => false
  | [], _ :: _ => true
  | _ :: _, [] => false
  | a :: as, b :: bs => decide (a.toNat < b.toNat) || (a == b && str_lt as bs)

/-- The assignment `methods[m] = h` in the method table of an entry. -/
def method_assign (methods : List (Str × Handler)) (m : Str) (h : Handler) :
    List (Str × Handler) :=
  (m, h) :: methods.filter (fun e => e.1 != m)

/-- The statement `table[pattern][m] = h` on a `resource_type` map, whose
entries are kept in ascending order of the pattern strings. -/
def register : resource_type → Str → Str → Handler → resource_type
  | [], pattern, m, h => [(pattern, [(m, h)])]
  | e :: rest, pattern, m, h =>
    if e.1 = pattern then (e.1, method_assign e.2 m h) :: rest
    else if str_lt pattern e.1 then (pattern, [(m, h)]) :: e :: rest
    else e :: register rest pattern m h

/-- A sequence of registrations on an empty map. -/
def register_all (regs : List (Str × Str × Handler)) : resource_type :=
  regs.foldl (fun t r => register t r.1 r.2.1 r.2.2) []

/-- The map `server.resource` as `start_server` fills it. -/
def handler_resource (iter : HeaderMap → List (Str × Str)) : resource_type :=
  register_all
    [("^/string/?$".toList, "POST".toList, string_handler),
     ("^/info/?$".toList, "GET".toList, info_handler iter),
     ("^/match/([0-9a-zA-Z]+)/?$".toList, "GET".toList, match_handler)]

/-- The map `server.default_resource` as `start_server` fills it. -/
def handler_default_resource (fs : Str → Option Str) : resource_type :=
  register_all [("^/?(.*)$".toList, "GET".toList, default_handler fs)]

/-- The search sequence of the server of `start_server`. -/
def handler_all_resources (iter : HeaderMap → List (Str × Str)) (fs : Str → Option Str) :
    List Route :=
  start (handler_resource iter) (handler_default_resource fs)

/-- The pattern strings of a map, in iteration order. -/
def patterns (t : resource_type) : List Str := t.map Prod.fst

/-- The unread bytes `d` still hold a header terminator that is followed by
`post`: either the second CR LF of it comes next, or all of it lies ahead. -/
def terminator_ahead (d post : Str) : Prop :=
  d = CRLF ++ post ∨ ∃ a, d = a ++ (CRLF ++ (CRLF ++ post))

/-! # Theorems -/

/-! ## Auxiliary facts on `List.span` and `getline` -/

theorem span_append_cons (p : Char → Bool) (a : Str) (x : Char) (b : Str)
    (ha : ∀ c ∈ a, p c = true) (hx : p x = false) :
    (a ++ x :: b).span p = (a, x :: b) := by
  induction a with
  | nil => simp [List.span, List.span.loop, hx]
  | cons c a ih =>
    have hc : p c = true := ha c (List.mem_cons_self c a)
    have ih2 := ih (fun d hd => ha d (List.mem_cons_of_mem c hd))
    simp only [List.cons_append, List.span_eq_take_drop, List.takeWhile_cons, hc,
      List.dropWhile_cons, if_true] at ih2 ⊢
    simp only [Prod.mk.injEq] at ih2
    simp [ih2.1, ih2.2]

theorem span_all (p : Char → Bool) (a : Str) (ha : ∀ c ∈ a, p c = true) :
    a.span p = (a, []) := by
  induction a with
  | nil => simp [List.span, List.span.loop]
  | cons c a ih =>
    have hc : p c = true := ha c (List.mem_cons_self c a)
    have ih2 := ih (fun d hd => ha d (List.mem_cons_of_mem c hd))
    simp only [List.span_eq_take_drop, List.takeWhile_cons, hc,
      List.dropWhile_cons, if_true, Prod.mk.injEq] at ih2 ⊢
    simp [ih2.1, ih2.2]

theorem span_spec (p : Char → Bool) (l a b : Str) (h : l.span p = (a, b)) :
    l = a ++ b ∧ (∀ c ∈ a, p c = true) ∧ (∀ x t, b = x :: t → p x = false) := by
  rw [List.span_eq_take_drop] at h
  simp only [Prod.mk.injEq] at h
  obtain ⟨h1, h2⟩ := h
  subst h1 h2
  refine ⟨(List.takeWhile_append_dropWhile p l).symm, ?_, ?_⟩
  · intro c hc
    exact List.mem_takeWhile_imp hc
  · intro x t hxt
    have := List.head_dropWhile_not p l
    induction l with
    | nil => simp at hxt
    | cons c l ih =>
      by_cases hc : p c = true
      · simp only [List.dropWhile_cons, hc, if_true] at hxt
        exact ih hxt (List.head_dropWhile_not p l)
      · simp only [List.dropWhile_cons, hc] at hxt
        simp only [Bool.false_eq_true, if_false, List.cons.injEq] at hxt
        rw [← hxt.1]
        simpa using hc


theorem http_literal : " HTTP/".toList = [' ', 'H', 'T', 'T', 'P', '/'] := by decide

theorem getline_crlf (l rest line0 : Str) (hl : '\n' ∉ l) :
    getline { data := l ++ CRLF ++ rest, good := true } line0
      = ({ data := rest, good := true }, l ++ ['\r']) := by
  have hsp : (l ++ CRLF ++ rest).span (fun c => c != '\n')
      = (l ++ ['\r'], '\n' :: rest) := by
    have : l ++ CRLF ++ rest = (l ++ ['\r']) ++ '\n' :: rest := by simp [CRLF]
    rw [this]
    apply span_append_cons
    · intro c hc
      rcases List.mem_append.1 hc with h | h
      · have : c ≠ '\n' := fun e => hl (e ▸ h)
        simpa using this
      · have : c = '\r' := by simpa using h
        subst this
        decide
    · decide
  simp only [getline, if_true, hsp]

theorem pop_back_concat (l : Str) (c : Char) : pop_back (l ++ [c]) = some l := by
  simp [pop_back]

theorem parse_headers_lines (hs : List Str) :
    ∀ (fuel : Nat) (request : Request) (line0 X tail : Str),
      (∀ l ∈ hs, '\n' ∉ l ∧ (match_header_line l).isSome = true) →
      '\n' ∉ X → match_header_line X = none → hs.length < fuel →
      parse_headers fuel { data := wire_lines hs ++ (X ++ CRLF ++ tail), good := true }
          line0 request
        = .ok ({ request with header := header_of_lines request.header hs },
               { data := tail, good := true }) := by
  induction hs with
  | nil =>
    intro fuel request line0 X tail _ hX hXn hf
    obtain ⟨f, rfl⟩ : ∃ f, fuel = f + 1 := ⟨fuel - 1, by simp at hf; omega⟩
    simp only [wire_lines, List.nil_append, parse_headers, getline_crlf X tail line0 hX,
      pop_back_concat, hXn, header_of_lines]
  | cons h hs ih =>
    intro fuel request line0 X tail hall hX hXn hf
    obtain ⟨f, rfl⟩ : ∃ f, fuel = f + 1 := ⟨fuel - 1, by simp at hf; omega⟩
    have hh := hall h (List.mem_cons_self h hs)
    obtain ⟨nv, hnv⟩ := Option.isSome_iff_exists.1 hh.2
    obtain ⟨n, v⟩ := nv
    have hdata : wire_lines (h :: hs) ++ (X ++ CRLF ++ tail)
        = h ++ CRLF ++ (wire_lines hs ++ (X ++ CRLF ++ tail)) := by
      simp [wire_lines, List.append_assoc]
    rw [hdata]
    simp only [parse_headers, getline_crlf h _ line0 hh.1, pop_back_concat, hnv,
      header_of_lines]
    rw [ih f _ h X tail (fun l hl => hall l (List.mem_cons_of_mem h hl)) hX hXn
      (by simp at hf; omega)]

theorem header_of_lines_append (hs : List Str) :
    ∀ (h : HeaderMap) (X : Str) (more : List Str),
      (∀ l ∈ hs, (match_header_line l).isSome = true) → match_header_line X = none →
      header_of_lines h (hs ++ X :: more) = header_of_lines h hs := by
  induction hs with
  | nil => intro h X more _ hX; simp [header_of_lines, hX]
  | cons l hs ih =>
    intro h X more hall hX
    obtain ⟨nv, hnv⟩ := Option.isSome_iff_exists.1 (hall l (List.mem_cons_self l hs))
    simp only [List.cons_append, header_of_lines, hnv]
    exact ih _ X more (fun l hl => hall l (List.mem_cons_of_mem _ hl)) hX

theorem wire_lines_length (ls : List Str) : 2 * ls.length ≤ (wire_lines ls).length := by
  induction ls with
  | nil => simp [wire_lines]
  | cons l ls ih => simp [wire_lines, CRLF]; omega

theorem match_request_line_of_form (line M P V : Str) (h : RequestLineForm line M P V) :
    match_request_line line = some (M, P, V) := by
  obtain ⟨hM, hP, hV, rfl⟩ := h
  have h1 : (M ++ ' ' :: (P ++ " HTTP/".toList ++ V)).span (fun c => c != ' ')
      = (M, ' ' :: (P ++ " HTTP/".toList ++ V)) := by
    apply span_append_cons
    · intro c hc
      have : c ≠ ' ' := fun e => hM (e ▸ hc)
      simpa using this
    · decide
  have h2 : (P ++ " HTTP/".toList ++ V).span (fun c => c != ' ')
      = (P, ' ' :: 'H' :: 'T' :: 'T' :: 'P' :: '/' :: V) := by
    have : P ++ " HTTP/".toList ++ V = P ++ ' ' :: ('H' :: 'T' :: 'T' :: 'P' :: '/' :: V) := by
      rw [http_literal]; simp
    rw [this]
    apply span_append_cons
    · intro c hc
      have : c ≠ ' ' := fun e => hP (e ▸ hc)
      simpa using this
    · decide
  have h3 : V.all (fun c => c != ' ') = true := by
    rw [List.all_eq_true]
    intro c hc
    have : c ≠ ' ' := fun e => hV (e ▸ hc)
    simpa using this
  simp only [match_request_line, h1, h2, h3, if_true]

theorem form_of_match_request_line (line M P V : Str)
    (h : match_request_line line = some (M, P, V)) : RequestLineForm line M P V := by
  unfold match_request_line at h
  split at h
  · rename_i m r h1
    split at h
    · rename_i p v h2
      split at h
      · rename_i h3
        simp only [Option.some.injEq, Prod.mk.injEq] at h
        obtain ⟨rfl, rfl, rfl⟩ := h
        obtain ⟨e1, a1, _⟩ := span_spec _ _ _ _ h1
        obtain ⟨e2, a2, _⟩ := span_spec _ _ _ _ h2
        refine ⟨?_, ?_, ?_, ?_⟩
        · intro hm; have := a1 _ hm; simp at this
        · intro hm; have := a2 _ hm; simp at this
        · intro hm
          rw [List.all_eq_true] at h3
          have := h3 _ hm; simp at this
        · rw [e1, e2, http_literal]; simp
      · simp at h
    · simp at h
  · simp at h


theorem respond_from_none (lib : Lib) (request : Request) (write_ok : Bool)
    (rs : List Route) :
    ∀ k, (∀ e ∈ rs, eligible lib request e = false) →
      respond_from lib request write_ok k rs = [] := by
  induction rs with
  | nil => intro k _; rfl
  | cons e rs ih =>
    intro k h
    have he := h e (List.mem_cons_self e rs)
    have ih2 := ih (k + 1) (fun x hx => h x (List.mem_cons_of_mem e hx))
    unfold respond_from
    unfold eligible at he
    cases hm : lib.regex_match request.path e.1 with
    | none => simpa using ih2
    | some sm =>
      cases hl : List.lookup request.method e.2 with
      | none => simpa using ih2
      | some hd => simp [hm, hl] at he

theorem respond_from_first (lib : Lib) (request : Request) (write_ok : Bool)
    (rs : List Route) :
    ∀ (k i : Nat) (hi : i < rs.length) (sm : List Str) (hd : Handler),
      lib.regex_match request.path rs[i].1 = some sm →
      rs[i].2.lookup request.method = some hd →
      (∀ j (hj : j < i), eligible lib request (rs[j]) = false) →
      respond_from lib request write_ok k rs
        = Event.handler (k + i) { request with path_match := sm } ::
            (match hd { request with path_match := sm } with
             | some bytes =>
               Event.async_write bytes ::
                 after_write lib { request with path_match := sm } write_ok
             | none => [Event.handler_undefined]) := by
  induction rs with
  | nil => intro k i hi; simp at hi
  | cons e rs ih =>
    intro k i hi sm hd hm hl hfirst
    cases i with
    | zero =>
      simp only [List.getElem_cons_zero] at hm hl
      cases hr : hd { request with path_match := sm } <;>
        simp [respond_from, hm, hl, hr]
    | succ i =>
      simp only [List.getElem_cons_succ] at hm hl
      have he : eligible lib request e = false := by
        have := hfirst 0 (Nat.succ_pos i)
        simpa using this
      have hi2 : i < rs.length := by simpa using hi
      have ih2 := ih (k + 1) i hi2 sm hd hm hl (fun j hj => by
        have := hfirst (j + 1) (Nat.succ_lt_succ hj)
        simpa using this)
      have hk : k + 1 + i = k + (i + 1) := by omega
      rw [hk] at ih2
      unfold respond_from
      unfold eligible at he
      cases hm2 : lib.regex_match request.path e.1 with
      | none => simpa using ih2
      | some sm2 =>
        cases hl2 : List.lookup request.method e.2 with
        | none => simpa using ih2
        | some hd2 => simp [hm2, hl2] at he

theorem after_write_no_handler (lib : Lib) (request : Request) (write_ok : Bool) :
    (after_write lib request write_ok).filter Event.is_handler = [] := by
  unfold after_write
  split
  · split
    · rfl
    · split <;> rfl
  · rfl

theorem respond_from_handlers_le (lib : Lib) (request : Request) (write_ok : Bool)
    (rs : List Route) :
    ∀ k, ((respond_from lib request write_ok k rs).filter Event.is_handler).length ≤ 1 := by
  induction rs with
  | nil => intro k; simp [respond_from]
  | cons e rs ih =>
    intro k
    unfold respond_from
    cases hm : lib.regex_match request.path e.1 with
    | none => simpa using ih (k + 1)
    | some sm =>
      cases hl : List.lookup request.method e.2 with
      | none => simpa using ih (k + 1)
      | some hd =>
        cases hr : hd { request with path_match := sm } <;>
          simp [hr, List.filter_cons, Event.is_handler, after_write_no_handler]


/-- C1. Dispatch over the search sequence built by `start` (explicit entries,
then default entries): `respond` calls the handler of the first entry whose
pattern matches the whole path and whose method table has the method, entries
that match the path without having the method being passed over, and writes
what the handler returns, if it returns; when no entry has both, it does
nothing; and a dispatch never holds more than one handler call. -/
theorem respond_first_eligible (lib : Lib) (resource default_resource : resource_type)
    (write_ok : Bool) (request : Request) (rs : List Route)
    (hrs : rs = start resource default_resource) :
    (∀ (i : Nat) (hi : i < rs.length) (sm : List Str) (hd : Handler),
        lib.regex_match request.path rs[i].1 = some sm →
        rs[i].2.lookup request.method = some hd →
        (∀ j (hj : j < i), eligible lib request (rs[j]) = false) →
        respond lib rs write_ok request
          = Event.handler i { request with path_match := sm } ::
              (match hd { request with path_match := sm } with
               | some bytes =>
                 Event.async_write bytes ::
                   after_write lib { request with path_match := sm } write_ok
               | none => [Event.handler_undefined])) ∧
    ((∀ e ∈ rs, eligible lib request e = false) → respond lib rs write_ok request = []) ∧
    ((respond lib rs write_ok request).filter Event.is_handler).length ≤ 1 ∧
    (∀ (i : Nat) (hi : i < resource.length), rs[i]? = some resource[i]) ∧
    (∀ (j : Nat) (hj : j < default_resource.length),
        rs[resource.length + j]? = some default_resource[j]) := by
  subst hrs
  refine ⟨?_, ?_, ?_, ?_, ?_⟩
  · intro i hi sm hd hm hl hfirst
    have := respond_from_first lib request write_ok _ 0 i hi sm hd hm hl hfirst
    simpa [respond] using this
  · intro h
    exact respond_from_none lib request write_ok _ 0 h
  · exact respond_from_handlers_le lib request write_ok _ 0
  · intro i hi
    simp [start, List.getElem?_append_left hi]
  · intro j hj
    have hlen : resource.length ≤ resource.length + j := Nat.le_add_right _ _
    rw [start, List.getElem?_append_right hlen, Nat.add_sub_cancel_left,
      List.getElem?_eq_getElem hj]

/-- C1, an instance: `GET /info` against an explicit entry for `/info` that has
only `POST` and the default entry with `GET` is served by the default entry. -/
theorem respond_first_eligible_witness :
    respond sample_lib
        (start [("^/info/?$".toList, [("POST".toList, sample_handler "A".toList)])]
               [("^/?(.*)$".toList, [("GET".toList, sample_handler "B".toList)])])
        false (sample_request "GET".toList "/info".toList "1.1".toList)
      = [Event.handler 1
           { sample_request "GET".toList "/info".toList "1.1".toList with
             path_match := ["/info".toList, "info".toList] },
         Event.async_write "B/info".toList] := by
  have h := (respond_first_eligible sample_lib
    [("^/info/?$".toList, [("POST".toList, sample_handler "A".toList)])]
    [("^/?(.*)$".toList, [("GET".toList, sample_handler "B".toList)])]
    false (sample_request "GET".toList "/info".toList "1.1".toList) _ rfl).1
      1 (by decide) ["/info".toList, "info".toList] (sample_handler "B".toList)
      (by decide) (by rfl) (by decide)
  rw [h]
  decide


theorem parse_request_of_match (line M P V : Str) (hs : List Str) (X tail : Str)
    (hline : '\n' ∉ line) (hm : match_request_line line = some (M, P, V))
    (hhs : ∀ l ∈ hs, '\n' ∉ l ∧ (match_header_line l).isSome = true)
    (hX : '\n' ∉ X) (hXn : match_header_line X = none) :
    parse_request { data := line ++ CRLF ++ (wire_lines hs ++ (X ++ CRLF ++ tail)), good := true }
      = .ok ({ method := M, path := P, http_version := V, content := none,
               header := header_of_lines [] hs, path_match := [] },
             { data := tail, good := true }) := by
  have hfuel : hs.length <
      (line ++ CRLF ++ (wire_lines hs ++ (X ++ CRLF ++ tail))).length + 2 := by
    have := wire_lines_length hs
    simp only [List.length_append]
    omega
  simp only [parse_request, getline_crlf line _ [] hline, pop_back_concat, hm]
  rw [parse_headers_lines hs _ _ line X tail hhs hX hXn hfuel]
  rfl

theorem parse_request_of_no_match (line rest : Str) (hline : '\n' ∉ line)
    (hm : match_request_line line = none) :
    parse_request { data := line ++ CRLF ++ rest, good := true }
      = .ok (Request.empty, { data := rest, good := true }) := by
  simp only [parse_request, getline_crlf line _ [] hline, pop_back_concat, hm]

theorem lookup_assign (h : HeaderMap) (k v n : Str) :
    (h.assign k v).lookup n = if n = k then some v else h.lookup n := by
  unfold HeaderMap.assign
  by_cases hnk : n = k
  · subst hnk
    simp [List.lookup]
  · have hbeq : (n == k) = false := by simpa using hnk
    simp only [List.lookup, hbeq, hnk, if_false]
    induction h with
    | nil => rfl
    | cons e h ih =>
      obtain ⟨a, b⟩ := e
      by_cases hak : a = k
      · subst hak
        simp [List.filter_cons, List.lookup, hbeq, ih]
      · have hak2 : (a != k) = true := by simpa using hak
        simp only [List.filter_cons, hak2, if_true, List.lookup]
        cases hna : n == a <;> simp [ih]

theorem lookup_foldl_assign_absent (es : List (Str × Str)) :
    ∀ (h : HeaderMap) (n : Str), (∀ e ∈ es, e.1 ≠ n) →
      (es.foldl (fun h e => h.assign e.1 e.2) h).lookup n = h.lookup n := by
  induction es with
  | nil => intro h n _; rfl
  | cons e es ih =>
    intro h n hall
    simp only [List.foldl_cons]
    rw [ih _ n (fun x hx => hall x (List.mem_cons_of_mem e hx)), lookup_assign]
    have : n ≠ e.1 := fun hne => hall e (List.mem_cons_self e es) hne.symm
    simp [this]

theorem lookup_foldl_assign_last (pre post : List (Str × Str)) (n v : Str) (h : HeaderMap)
    (hpost : ∀ e ∈ post, e.1 ≠ n) :
    ((pre ++ (n, v) :: post).foldl (fun h e => h.assign e.1 e.2) h).lookup n = some v := by
  rw [List.foldl_append, List.foldl_cons, lookup_foldl_assign_absent post _ n hpost,
    lookup_assign]
  simp

theorem exists_last_occurrence (es : List (Str × Str)) (n : Str) (h : ∃ e ∈ es, e.1 = n) :
    ∃ pre v post, es = pre ++ (n, v) :: post ∧ ∀ e ∈ post, e.1 ≠ n := by
  induction es with
  | nil => obtain ⟨e, he, _⟩ := h; simp at he
  | cons e es ih =>
    by_cases hes : ∃ x ∈ es, x.1 = n
    · obtain ⟨pre, v, post, heq, hp⟩ := ih hes
      exact ⟨e :: pre, v, post, by simp [heq], hp⟩
    · have he : e.1 = n := by
        obtain ⟨x, hx, hxn⟩ := h
        rcases List.mem_cons.1 hx with rfl | hx2
        · exact hxn
        · exact absurd ⟨x, hx2, hxn⟩ hes
      refine ⟨[], e.2, es, ?_, ?_⟩
      · simp [← he]
      · intro x hx hxn
        exact hes ⟨x, hx, hxn⟩

theorem header_of_lines_eq_foldl (hs : List Str) :
    ∀ (h : HeaderMap), (∀ l ∈ hs, (match_header_line l).isSome = true) →
      header_of_lines h hs
        = (hs.filterMap match_header_line).foldl (fun h e => h.assign e.1 e.2) h := by
  induction hs with
  | nil => intro h _; rfl
  | cons l hs ih =>
    intro h hall
    obtain ⟨nv, hnv⟩ := Option.isSome_iff_exists.1 (hall l (List.mem_cons_self l hs))
    simp only [header_of_lines, hnv, List.filterMap_cons, List.foldl_cons]
    exact ih _ (fun l hl => hall l (List.mem_cons_of_mem _ hl))

/-- C8. When no entry of the search sequence both matches the request path and
has the request method, `respond` does nothing at all: no byte is written to
the socket and no new cycle is started. -/
theorem respond_no_route (lib : Lib) (resource default_resource : resource_type)
    (write_ok : Bool) (request : Request)
    (h : ∀ e ∈ start resource default_resource, eligible lib request e = false) :
    respond lib (start resource default_resource) write_ok request = [] ∧
    (∀ bytes, Event.async_write bytes ∉
        respond lib (start resource default_resource) write_ok request) ∧
    Event.restart ∉ respond lib (start resource default_resource) write_ok request := by
  have h0 : respond lib (start resource default_resource) write_ok request = [] :=
    respond_from_none lib request write_ok _ 0 h
  rw [h0]
  simp

/-- C8, an instance: `GET /nonexistent` against the three explicit patterns of
`handler.hpp`, none of which matches. -/
theorem respond_no_route_witness :
    respond sample_lib
        (start [("^/info/?$".toList, [("GET".toList, sample_handler "I".toList)]),
                ("^/match/([0-9a-zA-Z]+)/?$".toList, [("GET".toList, sample_handler "M".toList)]),
                ("^/string/?$".toList, [("POST".toList, sample_handler "S".toList)])] [])
        true (sample_request "GET".toList "/nonexistent".toList "1.1".toList) = [] :=
  (respond_no_route sample_lib _ _ true _ (by decide)).1

/-- C5. For a first line `line` ended by CR LF: when `line` is
`M SP P SP "HTTP/" V` with no space in `M`, `P`, `V`, `parse_request` returns a
request with exactly these three fields (the header lines that follow each
being ended by CR LF, up to a line that is no header line); when `line` has no
such form, `parse_request` returns, without a fault, the request whose method,
path and version are empty; and the three fields are set only in the first
case. -/
theorem parse_request_line (line : Str) (hs : List Str) (X tail : Str)
    (hline : '\n' ∉ line)
    (hhs : ∀ l ∈ hs, '\n' ∉ l ∧ (match_header_line l).isSome = true)
    (hX : '\n' ∉ X) (hXn : match_header_line X = none) :
    (∀ M P V, RequestLineForm line M P V →
      ∃ r s, parse_request
          { data := line ++ CRLF ++ (wire_lines hs ++ (X ++ CRLF ++ tail)), good := true }
          = .ok (r, s) ∧ r.method = M ∧ r.path = P ∧ r.http_version = V) ∧
    ((¬ ∃ M P V, RequestLineForm line M P V) →
      ∀ rest, ∃ r s, parse_request { data := line ++ CRLF ++ rest, good := true }
          = .ok (r, s) ∧ r.method = [] ∧ r.path = [] ∧ r.http_version = []) ∧
    (∀ r s, parse_request
          { data := line ++ CRLF ++ (wire_lines hs ++ (X ++ CRLF ++ tail)), good := true }
          = .ok (r, s) →
        RequestLineForm line r.method r.path r.http_version ∨
        ((¬ ∃ M P V, RequestLineForm line M P V) ∧
          r.method = [] ∧ r.path = [] ∧ r.http_version = [])) := by
  refine ⟨?_, ?_, ?_⟩
  · intro M P V hform
    have hm := match_request_line_of_form line M P V hform
    exact ⟨_, _, parse_request_of_match line M P V hs X tail hline hm hhs hX hXn, rfl, rfl, rfl⟩
  · intro hno rest
    have hm : match_request_line line = none := by
      cases hmm : match_request_line line with
      | none => rfl
      | some mpv =>
        obtain ⟨M, P, V⟩ := mpv
        exact absurd ⟨M, P, V, form_of_match_request_line line M P V hmm⟩ hno
    exact ⟨_, _, parse_request_of_no_match line rest hline hm, rfl, rfl, rfl⟩
  · intro r s hr
    cases hmm : match_request_line line with
    | none =>
      right
      have h2 := parse_request_of_no_match line (wire_lines hs ++ (X ++ CRLF ++ tail)) hline hmm
      rw [h2] at hr
      simp only [Except.ok.injEq, Prod.mk.injEq] at hr
      obtain ⟨rfl, _⟩ := hr
      refine ⟨?_, rfl, rfl, rfl⟩
      rintro ⟨M, P, V, hform⟩
      rw [match_request_line_of_form line M P V hform] at hmm
      simp at hmm
    | some mpv =>
      left
      obtain ⟨M, P, V⟩ := mpv
      have h2 := parse_request_of_match line M P V hs X tail hline hmm hhs hX hXn
      rw [h2] at hr
      simp only [Except.ok.injEq, Prod.mk.injEq] at hr
      obtain ⟨rfl, _⟩ := hr
      exact form_of_match_request_line line M P V hmm

/-- C5, an instance: the header block of `GET /info HTTP/1.1` with one header
line. -/
theorem parse_request_line_witness :
    ∃ r s, parse_request
        { data := "GET /info HTTP/1.1".toList ++ CRLF
            ++ (wire_lines ["X-Test: 1".toList] ++ ([] ++ CRLF ++ "rest".toList)),
          good := true } = .ok (r, s) ∧
      r.method = "GET".toList ∧ r.path = "/info".toList ∧ r.http_version = "1.1".toList :=
  (parse_request_line "GET /info HTTP/1.1".toList ["X-Test: 1".toList] [] "rest".toList
    (by decide) (by decide) (by decide) (by decide)).1
    "GET".toList "/info".toList "1.1".toList (by unfold RequestLineForm; decide)


theorem wire_lines_append (a b : List Str) :
    wire_lines (a ++ b) = wire_lines a ++ wire_lines b := by
  induction a with
  | nil => rfl
  | cons l a ih => simp [wire_lines, ih, List.append_assoc]

/-- C6. For a header block whose request line matches and whose lines are ended
by CR LF, the header map returned by `parse_request` is the result of
processing in order the lines after the request line up to, and without, the
first line that is no header line, each line setting `header[NAME] := VALUE`
(`NAME` the text before the first colon, `VALUE` the text after the colon and
one optional space, free of CR): a name maps to the value of its last
occurrence among these lines, and the lines after the first line that is no
header line are left unread. -/
theorem parse_request_headers (line M P V : Str) (hs more : List Str) (X tail : Str)
    (hline : '\n' ∉ line) (hm : match_request_line line = some (M, P, V))
    (hhs : ∀ l ∈ hs, '\n' ∉ l ∧ (match_header_line l).isSome = true)
    (hX : '\n' ∉ X) (hXn : match_header_line X = none) :
    ∃ r s, parse_request
        { data := line ++ CRLF ++ (wire_lines (hs ++ X :: more) ++ tail), good := true }
        = .ok (r, s) ∧
      r.header = header_of_lines [] (hs ++ X :: more) ∧
      r.header = (hs.filterMap match_header_line).foldl
          (fun (h : HeaderMap) e => h.assign e.1 e.2) [] ∧
      (∀ n v, r.header.lookup n = some v ↔
        ∃ pre post, hs.filterMap match_header_line = pre ++ (n, v) :: post ∧
          ∀ e ∈ post, e.1 ≠ n) ∧
      s.data = wire_lines more ++ tail := by
  have hdata : wire_lines (hs ++ X :: more) ++ tail
      = wire_lines hs ++ (X ++ CRLF ++ (wire_lines more ++ tail)) := by
    rw [wire_lines_append]
    simp [wire_lines, List.append_assoc]
  have hall : ∀ l ∈ hs, (match_header_line l).isSome = true := fun l hl => (hhs l hl).2
  rw [hdata]
  refine ⟨_, _, parse_request_of_match line M P V hs X _ hline hm hhs hX hXn, ?_, ?_, ?_, rfl⟩
  · exact (header_of_lines_append hs [] X more hall hXn).symm
  · exact header_of_lines_eq_foldl hs [] hall
  · intro n v
    show (header_of_lines [] hs).lookup n = some v ↔ _
    rw [header_of_lines_eq_foldl hs [] hall]
    constructor
    · intro hlook
      by_cases hex : ∃ e ∈ hs.filterMap match_header_line, e.1 = n
      · obtain ⟨pre, v2, post, heq, hpost⟩ := exists_last_occurrence _ n hex
        have h2 := lookup_foldl_assign_last pre post n v2 [] hpost
        rw [← heq, hlook] at h2
        simp only [Option.some.injEq] at h2
        subst h2
        exact ⟨pre, post, heq, hpost⟩
      · have habs : ∀ e ∈ hs.filterMap match_header_line, e.1 ≠ n :=
          fun e he hen => hex ⟨e, he, hen⟩
        rw [lookup_foldl_assign_absent _ [] n habs] at hlook
        simp [List.lookup] at hlook
    · rintro ⟨pre, post, heq, hpost⟩
      rw [heq]
      exact lookup_foldl_assign_last pre post n v [] hpost

/-- C6, an instance: a name given twice keeps its last value, and a header
line after the blank line adds nothing. -/
theorem parse_request_headers_witness :
    ∃ r s, parse_request
        { data := "GET / HTTP/1.1".toList ++ CRLF
            ++ (wire_lines (["A: 1".toList, "B:2".toList, "A: 3".toList]
                  ++ [] :: ["C: 4".toList]) ++ []),
          good := true } = .ok (r, s) ∧
      r.header.lookup "A".toList = some "3".toList ∧
      r.header.lookup "B".toList = some "2".toList ∧
      r.header.lookup "C".toList = none := by
  obtain ⟨r, s, h1, h2, _, _, _⟩ :=
    parse_request_headers "GET / HTTP/1.1".toList "GET".toList "/".toList "1.1".toList
      ["A: 1".toList, "B:2".toList, "A: 3".toList] ["C: 4".toList] [] []
      (by decide) (by decide) (by decide) (by decide) (by decide)
  refine ⟨r, s, h1, ?_, ?_, ?_⟩ <;> rw [h2] <;> decide


theorem parse_headers_within_bound :
    ∀ (fuel : Nat) (stream : IStream) (line : Str) (request : Request),
      loop_bound stream line ≤ fuel →
      parse_headers fuel stream line request ≠ .error .fuel := by
  intro fuel
  induction fuel with
  | zero =>
    intro stream line request h
    unfold loop_bound at h
    split at h <;> omega
  | succ f ih =>
    intro stream line request h
    obtain ⟨data, good⟩ := stream
    unfold parse_headers
    cases good with
    | false =>
      simp only [getline, Bool.false_eq_true, if_false]
      cases line with
      | nil => simp [pop_back]
      | cons c l =>
        have hb : loop_bound { data := data, good := false } (c :: l).dropLast ≤ f := by
          simp only [loop_bound, Bool.false_eq_true, if_false, List.length_dropLast,
            List.length_cons] at h ⊢
          omega
        simp only [pop_back, List.isEmpty_cons, Bool.false_eq_true, if_false]
        cases hmh : match_header_line (c :: l).dropLast with
        | none => simp
        | some nv => exact ih _ _ _ hb
    | true =>
      simp only [loop_bound, if_true] at h
      simp only [getline, if_true]
      cases hsp : data.span (fun c => c != '\n') with
      | mk front back =>
        have hlen : data.length = front.length + back.length := by
          have := (span_spec _ _ _ _ hsp).1
          rw [this, List.length_append]
        cases back with
        | nil =>
          cases front with
          | nil => simp [pop_back]
          | cons c l =>
            have hb : loop_bound { data := [], good := false } (c :: l).dropLast ≤ f := by
              simp only [loop_bound, Bool.false_eq_true, if_false, List.length_dropLast,
                List.length_cons] at hlen ⊢
              simp only [List.length_cons, List.length_nil] at hlen
              omega
            simp only [pop_back, List.isEmpty_cons, Bool.false_eq_true, if_false]
            cases hmh : match_header_line (c :: l).dropLast with
            | none => simp
            | some nv => exact ih _ _ _ hb
        | cons x rest =>
          have hb : ∀ l, loop_bound { data := rest, good := true } l ≤ f := by
            intro l
            simp only [loop_bound, if_true]
            simp only [List.length_cons] at hlen
            omega
          cases front with
          | nil => simp [pop_back]
          | cons c l =>
            simp only [pop_back, List.isEmpty_cons, Bool.false_eq_true, if_false]
            cases hmh : match_header_line (c :: l).dropLast with
            | none => simp
            | some nv => exact ih _ _ _ (hb _)

/-- The header loop of `parse_request` always ends: the recursion budget of the
embedding is never used up, whatever the stream holds. -/
theorem parse_request_terminates (stream : IStream) :
    parse_request stream ≠ .error .fuel := by
  obtain ⟨data, good⟩ := stream
  unfold parse_request
  cases good with
  | false => simp [getline, pop_back]
  | true =>
    simp only [getline, if_true]
    cases hsp : data.span (fun c => c != '\n') with
    | mk front back =>
      have hlen : data.length = front.length + back.length := by
        have := (span_spec _ _ _ _ hsp).1
        rw [this, List.length_append]
      cases back with
      | nil =>
        cases front with
        | nil => simp [pop_back]
        | cons c l =>
          simp only [pop_back, List.isEmpty_cons, Bool.false_eq_true, if_false]
          cases hmr : match_request_line (c :: l).dropLast with
          | none => simp
          | some mpv =>
            apply parse_headers_within_bound
            simp only [loop_bound, Bool.false_eq_true, if_false, List.length_dropLast,
              List.length_cons] at hlen ⊢
            simp only [List.length_nil] at hlen
            omega
      | cons x rest =>
        cases front with
        | nil => simp [pop_back]
        | cons c l =>
          simp only [pop_back, List.isEmpty_cons, Bool.false_eq_true, if_false]
          cases hmr : match_request_line (c :: l).dropLast with
          | none => simp
          | some mpv =>
            apply parse_headers_within_bound
            simp only [loop_bound, if_true, List.length_cons] at hlen ⊢
            omega


theorem respond_from_cases (lib : Lib) (request : Request) (write_ok : Bool)
    (rs : List Route) :
    ∀ k, (respond_from lib request write_ok k rs = [] ∧
            ∀ e ∈ rs, eligible lib request e = false) ∨
         (∃ (i : Nat) (sm : List Str) (bytes : Str),
            (∃ e ∈ rs, eligible lib request e = true) ∧
            respond_from lib request write_ok k rs
              = [Event.handler i { request with path_match := sm },
                 Event.async_write bytes]
                ++ after_write lib { request with path_match := sm } write_ok) ∨
         (∃ (i : Nat) (sm : List Str),
            (∃ e ∈ rs, eligible lib request e = true) ∧
            respond_from lib request write_ok k rs
              = [Event.handler i { request with path_match := sm },
                 Event.handler_undefined]) := by
  induction rs with
  | nil => intro k; left; exact ⟨rfl, by simp⟩
  | cons e rs ih =>
    intro k
    cases hm : lib.regex_match request.path e.1 with
    | none =>
      have he : eligible lib request e = false := by simp [eligible, hm]
      have hstep : respond_from lib request write_ok k (e :: rs)
          = respond_from lib request write_ok (k + 1) rs := by
        simp [respond_from, hm]
      rw [hstep]
      rcases ih (k + 1) with ⟨h0, hall⟩ | ⟨i, sm, bytes, ⟨x, hx, hxe⟩, heq⟩ |
        ⟨i, sm, ⟨x, hx, hxe⟩, heq⟩
      · left
        refine ⟨h0, ?_⟩
        intro x hx
        rcases List.mem_cons.1 hx with rfl | hx2
        · exact he
        · exact hall x hx2
      · right; left
        exact ⟨i, sm, bytes, ⟨x, List.mem_cons_of_mem e hx, hxe⟩, heq⟩
      · right; right
        exact ⟨i, sm, ⟨x, List.mem_cons_of_mem e hx, hxe⟩, heq⟩
    | some sm =>
      cases hl : List.lookup request.method e.2 with
      | none =>
        have he : eligible lib request e = false := by simp [eligible, hm, hl]
        have hstep : respond_from lib request write_ok k (e :: rs)
            = respond_from lib request write_ok (k + 1) rs := by
          simp [respond_from, hm, hl]
        rw [hstep]
        rcases ih (k + 1) with ⟨h0, hall⟩ | ⟨i, sm2, bytes, ⟨x, hx, hxe⟩, heq⟩ |
          ⟨i, sm2, ⟨x, hx, hxe⟩, heq⟩
        · left
          refine ⟨h0, ?_⟩
          intro x hx
          rcases List.mem_cons.1 hx with rfl | hx2
          · exact he
          · exact hall x hx2
        · right; left
          exact ⟨i, sm2, bytes, ⟨x, List.mem_cons_of_mem e hx, hxe⟩, heq⟩
        · right; right
          exact ⟨i, sm2, ⟨x, List.mem_cons_of_mem e hx, hxe⟩, heq⟩
      | some hd =>
        have hel : ∃ x ∈ e :: rs, eligible lib request x = true :=
          ⟨e, List.mem_cons_self e rs, by simp [eligible, hm, hl]⟩
        cases hr : hd { request with path_match := sm } with
        | some bytes =>
          right; left
          exact ⟨k, sm, bytes, hel, by simp [respond_from, hm, hl, hr]⟩
        | none =>
          right; right
          exact ⟨k, sm, hel, by simp [respond_from, hm, hl, hr]⟩

theorem mem_after_write_restart (lib : Lib) (request : Request) (write_ok : Bool) :
    Event.restart ∈ after_write lib request write_ok ↔
      write_ok = true ∧ ∃ x, lib.stof request.http_version = some x ∧
        x.exceeds keep_alive_threshold = true := by
  unfold after_write
  cases write_ok with
  | false => simp
  | true =>
    cases hs : lib.stof request.http_version with
    | none => simp
    | some x =>
      cases hx : x.exceeds keep_alive_threshold <;> simp [hx]

theorem mem_after_write_raise (lib : Lib) (request : Request) (write_ok : Bool) :
    Event.raise ∈ after_write lib request write_ok ↔
      write_ok = true ∧ lib.stof request.http_version = none := by
  unfold after_write
  cases write_ok with
  | false => simp
  | true =>
    cases hs : lib.stof request.http_version with
    | none => simp
    | some x =>
      cases hx : x.exceeds keep_alive_threshold <;> simp [hx]

theorem after_write_events (lib : Lib) (request : Request) (write_ok : Bool) (ev : Event)
    (h : ev ∈ after_write lib request write_ok) : ev = .restart ∨ ev = .raise := by
  unfold after_write at h
  cases write_ok with
  | false => simp at h
  | true =>
    cases hs : lib.stof request.http_version with
    | none => simp [hs] at h; exact Or.inr h
    | some x =>
      cases hx : x.exceeds keep_alive_threshold <;> simp [hs, hx] at h
      exact Or.inl h

theorem mem_respond_write (lib : Lib) (rs : List Route) (write_ok : Bool)
    (request : Request) (bytes : Str)
    (h : Event.async_write bytes ∈ respond lib rs write_ok request) :
    ∃ e ∈ rs, eligible lib request e = true := by
  unfold respond at h
  rcases respond_from_cases lib request write_ok rs 0 with ⟨h0, _⟩ | ⟨_, _, _, hex, _⟩ |
    ⟨_, _, hex, _⟩
  · rw [h0] at h; simp at h
  · exact hex
  · exact hex

theorem mem_respond_write_iff (lib : Lib) (rs : List Route) (write_ok : Bool)
    (request : Request) :
    (∃ bytes, Event.async_write bytes ∈ respond lib rs write_ok request) ↔
      (∃ e ∈ rs, eligible lib request e = true) ∧
        Event.handler_undefined ∉ respond lib rs write_ok request := by
  unfold respond
  rcases respond_from_cases lib request write_ok rs 0 with ⟨h0, hall⟩ |
    ⟨i, sm, bytes, hex, heq⟩ | ⟨i, sm, hex, heq⟩
  · rw [h0]
    constructor
    · rintro ⟨_, h⟩; simp at h
    · rintro ⟨⟨e, he, hee⟩, _⟩
      rw [hall e he] at hee
      simp at hee
  · rw [heq]
    constructor
    · intro _
      refine ⟨hex, ?_⟩
      intro h
      simp only [List.mem_append, List.mem_cons, List.mem_singleton] at h
      rcases h with (h | h | h) | h
      · simp at h
      · simp at h
      · simp at h
      · rcases after_write_events lib _ write_ok _ h with h | h <;> simp at h
    · intro _
      exact ⟨bytes, by simp⟩
  · rw [heq]; simp

theorem mem_respond_restart (lib : Lib) (rs : List Route) (write_ok : Bool)
    (request : Request) :
    Event.restart ∈ respond lib rs write_ok request ↔
      (∃ bytes, Event.async_write bytes ∈ respond lib rs write_ok request) ∧
        write_ok = true ∧
        ∃ x, lib.stof request.http_version = some x ∧
          x.exceeds keep_alive_threshold = true := by
  unfold respond
  rcases respond_from_cases lib request write_ok rs 0 with ⟨h0, _⟩ | ⟨i, sm, bytes, _, heq⟩ |
    ⟨i, sm, _, heq⟩
  · rw [h0]; simp
  · rw [heq]
    simp only [List.mem_append, List.mem_cons, List.mem_singleton, mem_after_write_restart]
    constructor
    · rintro (h | h)
      · rcases h with h | h | h <;> simp at h
      · exact ⟨⟨bytes, Or.inl (Or.inr (Or.inl rfl))⟩, h⟩
    · rintro ⟨_, h⟩
      exact Or.inr h
  · rw [heq]; simp

theorem mem_respond_raise (lib : Lib) (rs : List Route) (write_ok : Bool)
    (request : Request) :
    Event.raise ∈ respond lib rs write_ok request ↔
      (∃ bytes, Event.async_write bytes ∈ respond lib rs write_ok request) ∧
        write_ok = true ∧ lib.stof request.http_version = none := by
  unfold respond
  rcases respond_from_cases lib request write_ok rs 0 with ⟨h0, _⟩ | ⟨i, sm, bytes, _, heq⟩ |
    ⟨i, sm, _, heq⟩
  · rw [h0]; simp
  · rw [heq]
    simp only [List.mem_append, List.mem_cons, List.mem_singleton, mem_after_write_raise]
    constructor
    · rintro (h | h)
      · rcases h with h | h | h <;> simp at h
      · exact ⟨⟨bytes, Or.inl (Or.inr (Or.inl rfl))⟩, h⟩
    · rintro ⟨_, h⟩
      exact Or.inr h
  · rw [heq]; simp

theorem respond_events (lib : Lib) (rs : List Route) (write_ok : Bool)
    (request : Request) (ev : Event) (h : ev ∈ respond lib rs write_ok request) :
    (∃ i sm, ev = .handler i { request with path_match := sm }) ∨
    (∃ bytes, ev = .async_write bytes) ∨ ev = .restart ∨ ev = .raise ∨
    ev = .handler_undefined := by
  unfold respond at h
  rcases respond_from_cases lib request write_ok rs 0 with ⟨h0, _⟩ | ⟨i, sm, bytes, _, heq⟩ |
    ⟨i, sm, _, heq⟩
  · rw [h0] at h; simp at h
  · rw [heq] at h
    simp only [List.mem_append, List.mem_cons, List.mem_singleton] at h
    rcases h with (h | h | h) | h
    · exact Or.inl ⟨i, sm, h⟩
    · exact Or.inr (Or.inl ⟨_, h⟩)
    · simp at h
    · rcases after_write_events lib _ write_ok ev h with h | h
      · exact Or.inr (Or.inr (Or.inl h))
      · exact Or.inr (Or.inr (Or.inr (Or.inl h)))
  · rw [heq] at h
    simp only [List.mem_cons, List.mem_singleton] at h
    rcases h with h | h | h
    · exact Or.inl ⟨i, sm, h⟩
    · exact Or.inr (Or.inr (Or.inr (Or.inr h)))
    · simp at h

theorem keep_alive_1_1 : FloatVal.exceeds (.finite float_1_1) keep_alive_threshold = true := by
  simp only [FloatVal.exceeds, float_1_1, keep_alive_threshold, decide_eq_true_eq]
  norm_num

theorem keep_alive_1_0 : FloatVal.exceeds (.finite 1) keep_alive_threshold = false := by
  simp only [FloatVal.exceeds, keep_alive_threshold, decide_eq_false_iff_not]
  norm_num

/-- C7. A response is written by `respond` exactly when a handler was found and
returned. A new cycle is started exactly when a response was written, the write
succeeded and the value that `stof` gives for the version of the request is
greater than the constant 1.05 of the source; so after a successful write
version "1.1" starts a new cycle and version "1.0" does not, and after a failed
write no new cycle is started, whatever the version. -/
theorem restart_iff_version (lib : Lib) (rs : List Route) (request : Request)
    (h11 : lib.stof "1.1".toList = some (.finite float_1_1))
    (h10 : lib.stof "1.0".toList = some (.finite 1)) :
    ((∃ bytes, Event.async_write bytes ∈ respond lib rs true request) ↔
        (∃ e ∈ rs, eligible lib request e = true) ∧
          Event.handler_undefined ∉ respond lib rs true request) ∧
    (Event.restart ∈ respond lib rs true request ↔
        (∃ bytes, Event.async_write bytes ∈ respond lib rs true request) ∧
          ∃ x, lib.stof request.http_version = some x ∧
            x.exceeds keep_alive_threshold = true) ∧
    (request.http_version = "1.1".toList →
        (∃ bytes, Event.async_write bytes ∈ respond lib rs true request) →
        Event.restart ∈ respond lib rs true request) ∧
    (request.http_version = "1.0".toList → Event.restart ∉ respond lib rs true request) ∧
    Event.restart ∉ respond lib rs false request := by
  refine ⟨?_, ?_, ?_, ?_, ?_⟩
  · exact mem_respond_write_iff lib rs true request
  · rw [mem_respond_restart]
    constructor
    · rintro ⟨hw, _, h⟩; exact ⟨hw, h⟩
    · rintro ⟨hw, h⟩; exact ⟨hw, rfl, h⟩
  · intro hv hw
    rw [mem_respond_restart]
    exact ⟨hw, rfl, _, by rw [hv]; exact h11, keep_alive_1_1⟩
  · intro hv
    rw [mem_respond_restart]
    rintro ⟨_, _, x, hx, hex⟩
    rw [hv, h10] at hx
    simp only [Option.some.injEq] at hx
    subst hx
    rw [keep_alive_1_0] at hex
    simp at hex
  · rw [mem_respond_restart]
    rintro ⟨_, h, _⟩
    simp at h

/-- C7, an instance: `GET /info` with version "1.1" against the `/info` route;
the successful write is followed by a new cycle. -/
theorem restart_iff_version_witness :
    Event.restart ∈ respond sample_lib
      [("^/info/?$".toList, [("GET".toList, sample_handler "I".toList)])] true
      (sample_request "GET".toList "/info".toList "1.1".toList) :=
  (restart_iff_version sample_lib
    [("^/info/?$".toList, [("GET".toList, sample_handler "I".toList)])]
    (sample_request "GET".toList "/info".toList "1.1".toList)
    (by rfl) (by rfl)).2.2.1 rfl
    ⟨"I/info".toList, List.mem_cons_of_mem _ (List.mem_cons_self _ _)⟩


theorem size_sub_add (a k : Nat) (hk : k < 2 ^ 64) : size_sub (a + k) a = k := by
  unfold size_sub
  norm_num at hk ⊢
  omega

theorem size_sub_of_le (n k : Nat) (hk : k ≤ n) (hn : n < 2 ^ 64) : size_sub n k = n - k := by
  unfold size_sub
  norm_num at hn ⊢
  omega

theorem size_sub_of_lt (n k : Nat) (hn : n < k) (hk : k < 2 ^ 64) :
    size_sub n k = 2 ^ 64 - (k - n) := by
  unfold size_sub
  norm_num at hk ⊢
  omega

theorem stoull_lt (s : Str) (n : Nat) (h : stoull s = some n) : n < 2 ^ 64 := by
  unfold stoull at h
  simp only at h
  split at h
  · simp at h
  · split at h
    · simp at h
    · rename_i hlt
      simp only [Option.some.injEq] at h
      subst h
      split
      · exact Nat.mod_lt _ (by norm_num)
      · exact Nat.lt_of_not_le hlt

theorem count_pos_iff (h : HeaderMap) (k : Str) :
    0 < h.count k ↔ ∃ v, h.lookup k = some v := by
  unfold HeaderMap.count
  cases hl : List.lookup k h <;> simp

theorem at_of_lookup (h : HeaderMap) (k v : Str) (hl : h.lookup k = some v) : h.at k = v := by
  simp [HeaderMap.at, hl]

theorem parse_headers_content :
    ∀ (fuel : Nat) (stream : IStream) (line : Str) (request r : Request) (s : IStream),
      parse_headers fuel stream line request = .ok (r, s) → r.content = request.content := by
  intro fuel
  induction fuel with
  | zero => intro stream line request r s h; simp [parse_headers] at h
  | succ f ih =>
    intro stream line request r s h
    unfold parse_headers at h
    cases hg : getline stream line with
    | mk stream2 line2 =>
      rw [hg] at h
      simp only at h
      cases hp : pop_back line2 with
      | none => rw [hp] at h; simp at h
      | some line3 =>
        rw [hp] at h
        simp only at h
        cases hmh : match_header_line line3 with
        | none =>
          rw [hmh] at h
          simp only [Except.ok.injEq, Prod.mk.injEq] at h
          rw [← h.1]
        | some nv =>
          rw [hmh] at h
          obtain ⟨name, value⟩ := nv
          simp only at h
          have h2 := ih _ _ _ _ _ h
          exact h2

theorem parse_request_content (stream : IStream) (r : Request) (s : IStream)
    (h : parse_request stream = .ok (r, s)) : r.content = none := by
  unfold parse_request at h
  cases hg : getline stream [] with
  | mk stream2 line2 =>
    rw [hg] at h
    simp only at h
    cases hp : pop_back line2 with
    | none => rw [hp] at h; simp at h
    | some line3 =>
      rw [hp] at h
      simp only at h
      cases hmr : match_request_line line3 with
      | none =>
        rw [hmr] at h
        simp only [Except.ok.injEq, Prod.mk.injEq] at h
        rw [← h.1]
        rfl
      | some mpv =>
        rw [hmr] at h
        obtain ⟨m, p, v⟩ := mpv
        simp only at h
        have h2 := parse_headers_content _ _ _ _ _ _ h
        exact h2


theorem cycle_with_length (lib : Lib) (all_resources : List Route) (line M P V : Str)
    (hs : List Str) (v extra pending : Str) (n : Nat) (write_ok : Bool)
    (hline : '\n' ∉ line) (hm : match_request_line line = some (M, P, V))
    (hhs : ∀ l ∈ hs, '\n' ∉ l ∧ (match_header_line l).isSome = true)
    (hcl : (header_of_lines [] hs).lookup "Content-Length".toList = some v)
    (hN : stoull v = some n) (hextra : extra.length < 2 ^ 64) :
    process_request_and_respond lib all_resources
        { read_until := some (line ++ CRLF ++ (wire_lines hs ++ CRLF) ++ extra,
                              (line ++ CRLF ++ (wire_lines hs ++ CRLF)).length),
          pending := pending, write_ok := write_ok }
      = Event.async_read (size_sub n extra.length) ::
          (if size_sub n extra.length ≤ pending.length then
            respond lib all_resources write_ok
              { method := M, path := P, http_version := V,
                content := some (extra ++ pending.take (size_sub n extra.length)),
                header := header_of_lines [] hs, path_match := [] }
          else []) := by
  have hshape : line ++ CRLF ++ (wire_lines hs ++ CRLF) ++ extra
      = line ++ CRLF ++ (wire_lines hs ++ ([] ++ CRLF ++ extra)) := by
    simp [List.append_assoc]
  have hparse := parse_request_of_match line M P V hs [] extra hline hm hhs
    (by simp) (by decide)
  have hcount : 0 < (header_of_lines [] hs).count "Content-Length".toList :=
    (count_pos_iff _ _).2 ⟨v, hcl⟩
  have hat := at_of_lookup _ _ _ hcl
  have htotal : (line ++ CRLF ++ (wire_lines hs ++ CRLF) ++ extra).length
      = (line ++ CRLF ++ (wire_lines hs ++ CRLF)).length + extra.length := by
    rw [List.length_append]
  unfold process_request_and_respond
  simp only [htotal, size_sub_add _ _ hextra]
  rw [hshape, hparse]
  simp only [gt_iff_lt, hcount, if_true, hat, hN]

/-- C2, as the code has it. For a request with a matching request line, whose
lines between the request line and the blank line are ended by CR LF and all
match the header pattern, with a `Content-Length` whose value converts to `N`,
and a body of exactly `N` bytes of which any `k` bytes (`0 ≤ k ≤ N`) were
buffered along with the header terminator: the cycle asks for the `N - k`
missing bytes and the request given to `respond`, hence to the handler, has a
content stream that yields exactly the `N` body bytes, whatever bytes follow the
body on the socket. -/
theorem content_is_body (lib : Lib) (all_resources : List Route) (line M P V : Str)
    (hs : List Str) (v body tail : Str) (k : Nat) (write_ok : Bool)
    (hline : '\n' ∉ line) (hm : match_request_line line = some (M, P, V))
    (hhs : ∀ l ∈ hs, '\n' ∉ l ∧ (match_header_line l).isSome = true)
    (hcl : (header_of_lines [] hs).lookup "Content-Length".toList = some v)
    (hN : stoull v = some body.length) (hk : k ≤ body.length) :
    process_request_and_respond lib all_resources
        { read_until := some (line ++ CRLF ++ (wire_lines hs ++ CRLF) ++ body.take k,
                              (line ++ CRLF ++ (wire_lines hs ++ CRLF)).length),
          pending := body.drop k ++ tail, write_ok := write_ok }
      = Event.async_read (body.length - k) ::
          respond lib all_resources write_ok
            { method := M, path := P, http_version := V, content := some body,
              header := header_of_lines [] hs, path_match := [] } := by
  have hlt := stoull_lt v _ hN
  have htk : (body.take k).length = k := by simp [List.length_take, hk]
  have hsub : size_sub body.length (body.take k).length = body.length - k := by
    rw [htk]; exact size_sub_of_le _ _ hk hlt
  rw [cycle_with_length lib all_resources line M P V hs v (body.take k) (body.drop k ++ tail)
    body.length write_ok hline hm hhs hcl hN (by rw [htk]; omega)]
  have hdl : (body.drop k).length = body.length - k := by simp
  have hle : body.length - k ≤ (body.drop k ++ tail).length := by
    rw [List.length_append, hdl]; omega
  have htake : (body.drop k ++ tail).take (body.length - k) = body.drop k := by
    rw [List.take_append_of_le_length (by rw [hdl])]
    rw [List.take_of_length_le (by rw [hdl])]
  rw [hsub, if_pos hle, htake, List.take_append_drop]

/-- C2, an instance: `POST /string` with `Content-Length: 5` and body `hello`,
two bytes of which arrived with the header block, and a further request waiting
on the socket; the handler, which writes the content back, is given `hello`. -/
theorem content_is_body_witness :
    process_request_and_respond sample_lib
        [("^/string/?$".toList, [("POST".toList, fun r => r.content)])]
        { read_until := some
            ("POST /string HTTP/1.0\r\nHost: a\r\nContent-Length: 5\r\n\r\nhe".toList, 53),
          pending := "lloGET / HTTP/1.0\r\n\r\n".toList, write_ok := false }
      = [Event.async_read 3,
         Event.handler 0
           { method := "POST".toList, path := "/string".toList, http_version := "1.0".toList,
             content := some "hello".toList,
             header := [("Content-Length".toList, "5".toList), ("Host".toList, "a".toList)],
             path_match := ["/string".toList] },
         Event.async_write "hello".toList] := by
  have h := content_is_body sample_lib
    [("^/string/?$".toList, [("POST".toList, fun r => r.content)])]
    "POST /string HTTP/1.0".toList "POST".toList "/string".toList
    "1.0".toList ["Host: a".toList, "Content-Length: 5".toList] "5".toList "hello".toList
    "GET / HTTP/1.0\r\n\r\n".toList 2 false (by decide) (by decide) (by decide) (by decide)
    (by decide) (by decide)
  refine Eq.trans h ?_
  decide

theorem after_write_1_0 (request : Request) (hv : request.http_version = "1.0".toList) :
    after_write sample_lib request true = [] := by
  simp [after_write, sample_lib, sample_stof, hv, keep_alive_1_0]

/-- C2, the claim fails: a header block that holds `Content-Length: 2`, then a
line without a colon, then one more header line, is followed by exactly the two
body bytes `hi`, all of it buffered with the header terminator.  The header loop
of `parse_request` stops at the line without a colon, the cycle asks for 0
further bytes, and the content stream of the request given to the `/string`
handler yields the rest of the header block before the body: `X: 1`, CR LF,
CR LF, `hi`, ten bytes instead of two. -/
theorem content_holds_header_bytes :
    process_request_and_respond sample_lib (handler_all_resources id fun _ => none)
        { read_until := some
            ("POST /string HTTP/1.0\r\nContent-Length: 2\r\nbogus\r\nX: 1\r\n\r\nhi".toList,
             57),
          pending := [], write_ok := true }
      = [Event.async_read 0,
         Event.handler 2
           { method := "POST".toList, path := "/string".toList, http_version := "1.0".toList,
             content := some "X: 1\r\n\r\nhi".toList,
             header := [("Content-Length".toList, "2".toList)],
             path_match := ["/string".toList] },
         Event.async_write
           "HTTP/1.1 200 OK\r\nContent-Length: 10\r\n\r\nX: 1\r\n\r\nhi".toList] := by
  have h : process_request_and_respond sample_lib (handler_all_resources id fun _ => none)
        { read_until := some
            ("POST /string HTTP/1.0\r\nContent-Length: 2\r\nbogus\r\nX: 1\r\n\r\nhi".toList,
             57),
          pending := [], write_ok := true }
      = [Event.async_read 0,
         Event.handler 2
           { method := "POST".toList, path := "/string".toList, http_version := "1.0".toList,
             content := some "X: 1\r\n\r\nhi".toList,
             header := [("Content-Length".toList, "2".toList)],
             path_match := ["/string".toList] },
         Event.async_write
           "HTTP/1.1 200 OK\r\nContent-Length: 10\r\n\r\nX: 1\r\n\r\nhi".toList]
        ++ after_write sample_lib
           { method := "POST".toList, path := "/string".toList, http_version := "1.0".toList,
             content := some "X: 1\r\n\r\nhi".toList,
             header := [("Content-Length".toList, "2".toList)],
             path_match := ["/string".toList] } true := by
    rfl
  rw [h, after_write_1_0 _ rfl]
  rfl

/-- C3, what the code does. When the declared length `N` is smaller than the
number of bytes buffered beyond the header terminator, the cycle still issues
`async_read`, with the wrapped length `2^64 - (extra - N)`; nothing aborts, and
the dispatch only fails to happen because that many bytes do not arrive. -/
theorem short_length_wraps (lib : Lib) (all_resources : List Route) (line M P V : Str)
    (hs : List Str) (v extra pending : Str) (n : Nat) (write_ok : Bool)
    (hline : '\n' ∉ line) (hm : match_request_line line = some (M, P, V))
    (hhs : ∀ l ∈ hs, '\n' ∉ l ∧ (match_header_line l).isSome = true)
    (hcl : (header_of_lines [] hs).lookup "Content-Length".toList = some v)
    (hN : stoull v = some n) (hextra : extra.length < 2 ^ 64) (hshort : n < extra.length)
    (hpending : pending.length < 2 ^ 64 - (extra.length - n)) :
    process_request_and_respond lib all_resources
        { read_until := some (line ++ CRLF ++ (wire_lines hs ++ CRLF) ++ extra,
                              (line ++ CRLF ++ (wire_lines hs ++ CRLF)).length),
          pending := pending, write_ok := write_ok }
      = [Event.async_read (2 ^ 64 - (extra.length - n))] := by
  rw [cycle_with_length lib all_resources line M P V hs v extra pending n write_ok
    hline hm hhs hcl hN hextra, size_sub_of_lt n extra.length hshort hextra]
  rw [if_neg (by omega)]

/-- C3, the failing input: `Content-Length: 0` with one byte of the next request
buffered after the header terminator; the code asks the socket for `2^64 - 1`
bytes. -/
theorem short_length_wraps_witness :
    process_request_and_respond sample_lib
        [("^/string/?$".toList, [("POST".toList, fun r => r.content)])]
        { read_until := some ("POST /string HTTP/1.1\r\nContent-Length: 0\r\n\r\nG".toList, 44),
          pending := "ET / HTTP/1.1\r\n\r\n".toList, write_ok := true }
      = [Event.async_read 18446744073709551615] :=
  short_length_wraps sample_lib _ "POST /string HTTP/1.1".toList "POST".toList
    "/string".toList "1.1".toList ["Content-Length: 0".toList] "0".toList "G".toList
    "ET / HTTP/1.1\r\n\r\n".toList 0 true (by decide) (by decide) (by decide) (by decide)
    (by decide) (by decide) (by decide) (by decide)

theorem split_first_non_header (ls : List Str)
    (h : ∃ l ∈ ls, match_header_line l = none) :
    ∃ hs X more, ls = hs ++ X :: more ∧
      (∀ l ∈ hs, (match_header_line l).isSome = true) ∧ match_header_line X = none := by
  induction ls with
  | nil => obtain ⟨l, hl, _⟩ := h; simp at hl
  | cons a ls ih =>
    cases ha : match_header_line a with
    | none => exact ⟨[], a, ls, rfl, by simp, ha⟩
    | some nv =>
      have h2 : ∃ l ∈ ls, match_header_line l = none := by
        obtain ⟨l, hl, hln⟩ := h
        rcases List.mem_cons.1 hl with rfl | hl2
        · rw [ha] at hln; simp at hln
        · exact ⟨l, hl2, hln⟩
      obtain ⟨hs, X, more, heq, hall, hX⟩ := ih h2
      refine ⟨a :: hs, X, more, by simp [heq], ?_, hX⟩
      intro l hl
      rcases List.mem_cons.1 hl with rfl | hl2
      · simp [ha]
      · exact hall l hl2

theorem parse_request_framed (line : Str) (ls : List Str) (extra : Str)
    (hline : '\n' ∉ line) (hls : ∀ l ∈ ls, '\n' ∉ l) :
    ∃ r s, parse_request { data := line ++ CRLF ++ (wire_lines ls ++ CRLF) ++ extra, good := true }
      = .ok (r, s) := by
  cases hm : match_request_line line with
  | none =>
    have := parse_request_of_no_match line ((wire_lines ls ++ CRLF) ++ extra) hline hm
    rw [← List.append_assoc] at this
    exact ⟨_, _, this⟩
  | some mpv =>
    obtain ⟨M, P, V⟩ := mpv
    have hex : ∃ l ∈ ls ++ [[]], match_header_line l = none :=
      ⟨[], by simp, by decide⟩
    obtain ⟨hs, X, more, heq, hall, hX⟩ := split_first_non_header _ hex
    have hmem : ∀ l ∈ hs ++ X :: more, '\n' ∉ l := by
      intro l hl
      rw [← heq] at hl
      rcases List.mem_append.1 hl with h1 | h1
      · exact hls l h1
      · have : l = [] := by simpa using h1
        subst this
        simp
    have hshape : line ++ CRLF ++ (wire_lines ls ++ CRLF) ++ extra
        = line ++ CRLF ++ (wire_lines hs ++ (X ++ CRLF ++ (wire_lines more ++ extra))) := by
      have h1 : wire_lines ls ++ CRLF = wire_lines (ls ++ [[]]) := by
        rw [wire_lines_append]; simp [wire_lines]
      rw [h1, heq, wire_lines_append]
      simp [wire_lines, List.append_assoc]
    rw [hshape]
    exact ⟨_, _, parse_request_of_match line M P V hs X _ hline hm
      (fun l hl => ⟨hmem l (List.mem_append_left _ hl), hall l hl⟩)
      (hmem X (List.mem_append_right _ (List.mem_cons_self X more))) hX⟩

/-- C4, as the code has it. One connection cycle raises no exception provided
that the `Content-Length` value of the parsed header map, when there is one, is
a value that `stoull` converts, and that the parsed version, when a handler is
found and the write succeeds, is a value that `stof` converts; and for a header
block whose lines are ended by CR LF up to the blank line the cycle does not
reach `pop_back` on an empty line either. -/
theorem cycle_no_raise (lib : Lib) (rs : List Route) (socket : Socket)
    (hcl : ∀ buf bt r s, socket.read_until = some (buf, bt) →
      parse_request { data := buf, good := true } = .ok (r, s) →
      0 < r.header.count "Content-Length".toList →
      (stoull (r.header.at "Content-Length".toList)).isSome = true)
    (hv : ∀ buf bt r s, socket.read_until = some (buf, bt) →
      parse_request { data := buf, good := true } = .ok (r, s) →
      socket.write_ok = true → (∃ e ∈ rs, eligible lib r e = true) →
      (lib.stof r.http_version).isSome = true) :
    Event.raise ∉ process_request_and_respond lib rs socket ∧
    (∀ (line : Str) (ls : List Str) (extra : Str) (bt : Nat),
      '\n' ∉ line → (∀ l ∈ ls, '\n' ∉ l) →
      socket.read_until = some (line ++ CRLF ++ (wire_lines ls ++ CRLF) ++ extra, bt) →
      Event.undefined ∉ process_request_and_respond lib rs socket) := by
  have key : ∀ buf bt r s, socket.read_until = some (buf, bt) →
      parse_request { data := buf, good := true } = .ok (r, s) →
      Event.raise ∉ process_request_and_respond lib rs socket ∧
      Event.undefined ∉ process_request_and_respond lib rs socket := by
    intro buf bt r s hru hp
    have hno : ∀ (c : Option Str),
        Event.raise ∉ respond lib rs socket.write_ok { r with content := c } := by
      intro c hmem
      obtain ⟨⟨bytes, hb⟩, hw, hst⟩ := (mem_respond_raise lib rs _ _).1 hmem
      have hel : ∃ e ∈ rs, eligible lib r e = true := by
        obtain ⟨e, he, hee⟩ := mem_respond_write lib rs _ _ bytes hb
        exact ⟨e, he, hee⟩
      have := hv buf bt r s hru hp hw hel
      rw [show ({ r with content := c } : Request).http_version = r.http_version from rfl]
        at hst
      rw [hst] at this
      simp at this
    have hnu : ∀ (q : Request), Event.undefined ∉ respond lib rs socket.write_ok q := by
      intro q hmem
      rcases respond_events lib rs _ q _ hmem with ⟨i, sm, h⟩ | ⟨b, h⟩ | h | h | h <;> simp at h
    have hr0 : r = { r with content := r.content } := rfl
    unfold process_request_and_respond
    simp only [hru, hp]
    by_cases hc : 0 < r.header.count "Content-Length".toList
    · have hsome := hcl buf bt r s hru hp hc
      obtain ⟨n, hn⟩ := Option.isSome_iff_exists.1 hsome
      simp only [gt_iff_lt, hc, if_true, hn]
      constructor
      · intro hmem
        rcases List.mem_cons.1 hmem with h | h
        · simp at h
        · split at h
          · exact hno _ h
          · simp at h
      · intro hmem
        rcases List.mem_cons.1 hmem with h | h
        · simp at h
        · split at h
          · exact hnu _ h
          · simp at h
    · simp only [gt_iff_lt, hc, if_false]
      exact ⟨fun h => hno r.content h, hnu r⟩
  refine ⟨?_, ?_⟩
  · cases hru : socket.read_until with
    | none => simp [process_request_and_respond, hru]
    | some bb =>
      obtain ⟨buf, bt⟩ := bb
      cases hp : parse_request { data := buf, good := true } with
      | error f => simp [process_request_and_respond, hru, hp]
      | ok rs2 =>
        obtain ⟨r, s⟩ := rs2
        exact (key buf bt r s hru hp).1
  · intro line ls extra bt hline hls hru
    obtain ⟨r, s, hp⟩ := parse_request_framed line ls extra hline hls
    exact (key _ bt r s hru hp).2

/-- C4, an instance: a header block with `Content-Length: 5` and version "1.1"
goes through the cycle without an exception. -/
theorem cycle_no_raise_witness :
    Event.raise ∉ process_request_and_respond sample_lib
      [("^/string/?$".toList, [("POST".toList, fun r => r.content)])]
      { read_until := some ("POST /string HTTP/1.1\r\nContent-Length: 5\r\n\r\nhe".toList, 44),
        pending := "llo".toList, write_ok := true } :=
  (cycle_no_raise sample_lib _
    { read_until := some ("POST /string HTTP/1.1\r\nContent-Length: 5\r\n\r\nhe".toList, 44),
      pending := "llo".toList, write_ok := true }
    (by
      intro buf bt r s h1 h2 _
      simp only [Option.some.injEq, Prod.mk.injEq] at h1
      obtain ⟨rfl, rfl⟩ := h1
      have h3 : parse_request
          { data := "POST /string HTTP/1.1\r\nContent-Length: 5\r\n\r\nhe".toList, good := true }
          = .ok ({ method := "POST".toList, path := "/string".toList,
                   http_version := "1.1".toList, content := none,
                   header := [("Content-Length".toList, "5".toList)], path_match := [] },
                 { data := "he".toList, good := true }) := by rfl
      rw [h3] at h2
      simp only [Except.ok.injEq, Prod.mk.injEq] at h2
      obtain ⟨rfl, rfl⟩ := h2
      decide)
    (by
      intro buf bt r s h1 h2 _ _
      simp only [Option.some.injEq, Prod.mk.injEq] at h1
      obtain ⟨rfl, rfl⟩ := h1
      have h3 : parse_request
          { data := "POST /string HTTP/1.1\r\nContent-Length: 5\r\n\r\nhe".toList, good := true }
          = .ok ({ method := "POST".toList, path := "/string".toList,
                   http_version := "1.1".toList, content := none,
                   header := [("Content-Length".toList, "5".toList)], path_match := [] },
                 { data := "he".toList, good := true }) := by rfl
      rw [h3] at h2
      simp only [Except.ok.injEq, Prod.mk.injEq] at h2
      obtain ⟨rfl, rfl⟩ := h2
      rfl)).1

/-- C4, the claim fails: a `Content-Length` value without a digit makes `stoull`
throw out of the read continuation, and a version that is no number makes
`stof` throw out of the write continuation. -/
theorem cycle_raises :
    process_request_and_respond sample_lib []
        { read_until := some ("GET / HTTP/1.1\r\nContent-Length: abc\r\n\r\n".toList, 39),
          pending := [], write_ok := true } = [Event.raise] ∧
    process_request_and_respond sample_lib
        [("^/?(.*)$".toList, [("GET".toList, sample_handler "D".toList)])]
        { read_until := some ("GET / HTTP/x\r\n\r\n".toList, 16),
          pending := [], write_ok := true }
      = [Event.handler 0
           { sample_request "GET".toList "/".toList "x".toList with
             path_match := ["/".toList, []] },
         Event.async_write "D/".toList, Event.raise] := by
  constructor <;> decide


/-- C9, as the code has it. A header block whose first line, ended by CR LF, has
not the form `METHOD SP PATH SP HTTP/VERSION` gives the empty request, and this
request is served by no route, so that nothing is written, provided that the
route table has no handler under the empty method in an entry whose pattern
matches the empty path. -/
theorem unparsed_request_not_routed (lib : Lib) (rs : List Route)
    (line rest pending : Str) (bt : Nat) (write_ok : Bool)
    (hline : '\n' ∉ line) (hform : ¬ ∃ M P V, RequestLineForm line M P V)
    (hrs : ∀ e ∈ rs, (lib.regex_match [] e.1).isSome = true →
      (e.2.lookup []).isSome = false) :
    parse_request { data := line ++ CRLF ++ rest, good := true }
      = .ok (Request.empty, { data := rest, good := true }) ∧
    respond lib rs write_ok Request.empty = [] ∧
    process_request_and_respond lib rs
      { read_until := some (line ++ CRLF ++ rest, bt), pending := pending,
        write_ok := write_ok } = [] := by
  have hm : match_request_line line = none := by
    cases hmm : match_request_line line with
    | none => rfl
    | some mpv =>
      obtain ⟨M, P, V⟩ := mpv
      exact absurd ⟨M, P, V, form_of_match_request_line line M P V hmm⟩ hform
  have hp := parse_request_of_no_match line rest hline hm
  have hnone : ∀ e ∈ rs, eligible lib Request.empty e = false := by
    intro e he
    have := hrs e he
    unfold eligible
    cases hmatch : lib.regex_match Request.empty.path e.1 with
    | none => simp
    | some sm =>
      have h2 : (e.2.lookup []).isSome = false := this (by
        rw [show ([] : Str) = Request.empty.path from rfl, hmatch]; rfl)
      rw [show Request.empty.method = ([] : Str) from rfl, h2]
      simp
  have hr : respond lib rs write_ok Request.empty = [] :=
    respond_from_none lib Request.empty write_ok rs 0 hnone
  refine ⟨hp, hr, ?_⟩
  unfold process_request_and_respond
  simp only [hp]
  have hc : ¬ (0 < HeaderMap.count Request.empty.header "Content-Length".toList) := by decide
  simp only [gt_iff_lt, hc, if_false, hr]

/-- C9, an instance: the first line `BAD` against the routes of `handler.hpp`,
whose handlers are registered under `GET` and `POST`. -/
theorem unparsed_request_not_routed_witness :
    process_request_and_respond sample_lib
      [("^/info/?$".toList, [("GET".toList, sample_handler "I".toList)]),
       ("^/string/?$".toList, [("POST".toList, sample_handler "S".toList)]),
       ("^/?(.*)$".toList, [("GET".toList, sample_handler "D".toList)])]
      { read_until := some ("BAD".toList ++ CRLF ++ CRLF, 7), pending := [],
        write_ok := true } = [] :=
  (unparsed_request_not_routed sample_lib _ "BAD".toList CRLF [] 7 true (by decide)
    (by
      rintro ⟨M, P, V, h⟩
      have h1 := match_request_line_of_form _ M P V h
      have h2 : match_request_line "BAD".toList = none := by decide
      rw [h2] at h1
      simp at h1)
    (by decide)).2.2

/-- C9, the claim fails: a route table whose default entry has a handler under
the empty method serves the empty request that a malformed first line
produces. -/
theorem unparsed_request_routed :
    match_request_line "BAD".toList = none ∧
    process_request_and_respond sample_lib
        [("^/?(.*)$".toList, [([], sample_handler "D".toList)])]
        { read_until := some ("BAD\r\n\r\n".toList, 7), pending := [], write_ok := false }
      = [Event.handler 0 { Request.empty with path_match := [[], []] },
         Event.async_write "D".toList] := by
  constructor <;> decide

/-- C10, as the code has it. For a parsed request: without the key
`Content-Length` the request goes to `respond` as it is, its content absent, and
no body read is issued; with the key and a value that `stoull` converts a body
read is issued, and the request goes to `respond`, its content set, exactly when
that read completes; a body read is issued only with the key; and a handler
that is called sees a content exactly when the key is present. -/
theorem body_read_iff_content_length (lib : Lib) (rs : List Route) (buf pending : Str)
    (bt : Nat) (write_ok : Bool) (r : Request) (s : IStream) (trace : List Event)
    (hp : parse_request { data := buf, good := true } = .ok (r, s))
    (ht : trace = process_request_and_respond lib rs
      { read_until := some (buf, bt), pending := pending, write_ok := write_ok }) :
    (r.header.count "Content-Length".toList = 0 →
      trace = respond lib rs write_ok r ∧ r.content = none ∧
        ∀ n, Event.async_read n ∉ trace) ∧
    (0 < r.header.count "Content-Length".toList →
      ∀ n, stoull (r.header.at "Content-Length".toList) = some n →
        trace = Event.async_read (size_sub n (size_sub buf.length bt)) ::
          (if size_sub n (size_sub buf.length bt) ≤ pending.length then
            respond lib rs write_ok
              { r with
                content := some (s.data ++ pending.take (size_sub n (size_sub buf.length bt))) }
          else [])) ∧
    (∀ n, Event.async_read n ∈ trace → 0 < r.header.count "Content-Length".toList) ∧
    (∀ i q, Event.handler i q ∈ trace →
      (q.content.isSome = true ↔ 0 < r.header.count "Content-Length".toList)) := by
  have hcontent := parse_request_content _ r s hp
  have hnr : ∀ (q : Request) (n : Nat), Event.async_read n ∉ respond lib rs write_ok q := by
    intro q n hmem
    rcases respond_events lib rs _ q _ hmem with ⟨i, sm, h⟩ | ⟨b, h⟩ | h | h | h <;> simp at h
  have hh : ∀ (q : Request) (i : Nat) (q2 : Request),
      Event.handler i q2 ∈ respond lib rs write_ok q → q2.content = q.content := by
    intro q i q2 hmem
    rcases respond_events lib rs _ q _ hmem with ⟨j, sm, h⟩ | ⟨b, h⟩ | h | h
    · simp only [Event.handler.injEq] at h
      rw [h.2]
    · simp at h
    · simp at h
    · simp at h
  by_cases hc : 0 < r.header.count "Content-Length".toList
  · have hne : r.header.count "Content-Length".toList ≠ 0 := by omega
    have hshape : ∀ n, stoull (r.header.at "Content-Length".toList) = some n →
        trace = Event.async_read (size_sub n (size_sub buf.length bt)) ::
          (if size_sub n (size_sub buf.length bt) ≤ pending.length then
            respond lib rs write_ok
              { r with
                content := some (s.data ++ pending.take (size_sub n (size_sub buf.length bt))) }
          else []) := by
      intro n hn
      rw [ht]
      unfold process_request_and_respond
      simp only [hp, gt_iff_lt, hc, if_true, hn]
    refine ⟨fun h0 => absurd h0 hne, fun _ => hshape, fun _ _ => hc, ?_⟩
    intro i q hmem
    refine ⟨fun _ => hc, fun _ => ?_⟩
    cases hst : stoull (r.header.at "Content-Length".toList) with
    | none =>
      rw [ht] at hmem
      unfold process_request_and_respond at hmem
      simp only [hp, gt_iff_lt, hc, if_true, hst] at hmem
      simp at hmem
    | some n =>
      rw [hshape n hst] at hmem
      rcases List.mem_cons.1 hmem with h | h
      · simp at h
      · split at h
        · rw [hh _ i q h]; rfl
        · simp at h
  · have h0 : r.header.count "Content-Length".toList = 0 := by omega
    have hshape : trace = respond lib rs write_ok r := by
      rw [ht]
      unfold process_request_and_respond
      simp only [hp, gt_iff_lt, hc, if_false]
    refine ⟨fun _ => ⟨hshape, hcontent, ?_⟩, fun h => absurd h hc, ?_, ?_⟩
    · intro n hmem
      rw [hshape] at hmem
      exact hnr r n hmem
    · intro n hmem
      rw [hshape] at hmem
      exact absurd hmem (hnr r n)
    · intro i q hmem
      rw [hshape] at hmem
      have := hh r i q hmem
      rw [this, hcontent]
      constructor
      · intro h; simp at h
      · intro h; exact absurd h hc

/-- C10, an instance: `GET /info` without `Content-Length`; the handler is
called with an absent content and no body read is issued. -/
theorem body_read_iff_content_length_witness :
    process_request_and_respond sample_lib
        [("^/info/?$".toList, [("GET".toList, sample_handler "I".toList)])]
        { read_until := some ("GET /info HTTP/1.0\r\nX-Test: 1\r\n\r\n".toList, 33),
          pending := [], write_ok := true }
      = respond sample_lib
          [("^/info/?$".toList, [("GET".toList, sample_handler "I".toList)])] true
          { method := "GET".toList, path := "/info".toList, http_version := "1.0".toList,
            content := none, header := [("X-Test".toList, "1".toList)], path_match := [] } :=
  ((body_read_iff_content_length sample_lib _
      "GET /info HTTP/1.0\r\nX-Test: 1\r\n\r\n".toList [] 33 true
      { method := "GET".toList, path := "/info".toList, http_version := "1.0".toList,
        content := none, header := [("X-Test".toList, "1".toList)], path_match := [] }
      { data := [], good := true } _ (by rfl) rfl).1 (by decide)).1

/-- C10, the claim fails: with the key `Content-Length` in the header map, a
value that is no number leads to no body read at all, and a body that stops
short leads to a body read after which the content is never set and no handler
is called. -/
theorem body_read_without_content :
    (∃ r s, parse_request
        { data := "POST /string HTTP/1.1\r\nContent-Length: x\r\n\r\n".toList, good := true }
        = .ok (r, s) ∧ r.header.count "Content-Length".toList = 1) ∧
    process_request_and_respond sample_lib
        [("^/string/?$".toList, [("POST".toList, fun r => r.content)])]
        { read_until := some ("POST /string HTTP/1.1\r\nContent-Length: x\r\n\r\n".toList, 44),
          pending := [], write_ok := true } = [Event.raise] ∧
    process_request_and_respond sample_lib
        [("^/string/?$".toList, [("POST".toList, fun r => r.content)])]
        { read_until := some ("POST /string HTTP/1.1\r\nContent-Length: 5\r\n\r\n".toList, 44),
          pending := "he".toList, write_ok := true } = [Event.async_read 5] := by
  refine ⟨⟨_, _, rfl, by decide⟩, by decide, by decide⟩

/-! ## The dot stripping of the default handler -/

theorem first_index_of_not_mem (c : Char) (s : Str) (h : c ∉ s) : first_index c s = none := by
  induction s with
  | nil => rfl
  | cons x xs ih =>
    have hx : x ≠ c := fun e => h (e ▸ List.mem_cons_self x xs)
    have hxs : c ∉ xs := fun e => h (List.mem_cons_of_mem x e)
    simp [first_index, hx, ih hxs]

theorem first_index_append (c : Char) (x y : Str) (h : c ∉ x) :
    first_index c (x ++ c :: y) = some x.length := by
  induction x with
  | nil => simp [first_index]
  | cons a x ih =>
    have ha : a ≠ c := fun e => h (e ▸ List.mem_cons_self a x)
    have hx : c ∉ x := fun e => h (List.mem_cons_of_mem a e)
    simp [first_index, ha, ih hx]

theorem split_at_first (c : Char) (l : Str) (h : c ∈ l) :
    ∃ x y, l = x ++ c :: y ∧ c ∉ x := by
  induction l with
  | nil => simp at h
  | cons a l ih =>
    by_cases ha : a = c
    · exact ⟨[], l, by simp [ha], by simp⟩
    · have hl : c ∈ l := by
        rcases List.mem_cons.1 h with e | e
        · exact absurd e.symm ha
        · exact e
      obtain ⟨x, y, hxy, hx⟩ := ih hl
      refine ⟨a :: x, y, by simp [hxy], ?_⟩
      intro hm
      rcases List.mem_cons.1 hm with e | e
      · exact ha e.symm
      · exact hx e

theorem split_at_last (c : Char) (l : Str) (h : c ∈ l) :
    ∃ x y, l = x ++ c :: y ∧ c ∉ y := by
  obtain ⟨x, y, hxy, hx⟩ := split_at_first c l.reverse (List.mem_reverse.2 h)
  refine ⟨y.reverse, x.reverse, ?_, by simpa using hx⟩
  have := congrArg List.reverse hxy
  simpa using this

theorem str_find_at (c : Char) (u x y : Str) (h : c ∉ x) :
    str_find c (u ++ x ++ c :: y) u.length = u.length + x.length := by
  have hd : (u ++ x ++ c :: y).drop u.length = x ++ c :: y := by
    rw [List.append_assoc, List.drop_left]
  simp [str_find, hd, first_index_append c x y h]

theorem str_find_none (c : Char) (u x : Str) (h : c ∉ x) :
    str_find c (u ++ x) u.length = npos := by
  have hd : (u ++ x).drop u.length = x := List.drop_left _ _
  simp [str_find, hd, first_index_of_not_mem c x h]

theorem str_rfind_at (c : Char) (a b : Str) (h : c ∉ b) :
    str_rfind c (a ++ c :: b) = a.length := by
  have hr : (a ++ c :: b).reverse = b.reverse ++ c :: a.reverse := by simp
  have hb : c ∉ b.reverse := by simpa using h
  simp only [str_rfind, hr, first_index_append c _ _ hb, List.length_append,
    List.length_cons, List.length_reverse]
  omega

theorem str_rfind_none (c : Char) (p : Str) (h : c ∉ p) : str_rfind c p = npos := by
  have hr : c ∉ p.reverse := by simpa using h
  simp [str_rfind, first_index_of_not_mem c _ hr]

theorem eraseIdx_middle (u v : Str) (c : Char) : (u ++ c :: v).eraseIdx u.length = u ++ v := by
  induction u with
  | nil => rfl
  | cons a u ih => simp [List.eraseIdx, ih]

theorem filter_dots_of_not_mem (x : Str) (h : '.' ∉ x) :
    x.filter (fun c => c != '.') = x := by
  rw [List.filter_eq_self]
  intro c hc
  have : c ≠ '.' := fun e => h (e ▸ hc)
  simpa using this

theorem strip_loop_spec :
    ∀ (fuel : Nat) (u r1 r2 : Str), '.' ∉ u → '.' ∉ r2 → r1.length < fuel →
      (u ++ r1 ++ '.' :: r2).length < npos →
      strip_loop fuel (u ++ r1 ++ '.' :: r2) (u.length + r1.length) u.length
        = some (u ++ r1.filter (fun c => c != '.') ++ '.' :: r2) := by
  intro fuel
  induction fuel with
  | zero => intro u r1 r2 _ _ h; omega
  | succ f ih =>
    intro u r1 r2 hu hr2 hf hlen
    have hnpos : npos = 18446744073709551615 := by decide
    by_cases hdot : '.' ∈ r1
    · obtain ⟨x, y, hxy, hx⟩ := split_at_first '.' r1 hdot
      subst hxy
      have hpath : u ++ (x ++ '.' :: y) ++ '.' :: r2 = u ++ x ++ '.' :: (y ++ '.' :: r2) := by
        simp [List.append_assoc]
      have hpos : str_find '.' (u ++ (x ++ '.' :: y) ++ '.' :: r2) u.length
          = u.length + x.length := by
        rw [hpath]; exact str_find_at '.' u x _ hx
      simp only [List.length_append, List.length_cons] at hlen hf
      have h1 : (u.length + x.length != npos) = true := by
        simp only [bne_iff_ne, ne_eq]; omega
      have h2 : (u.length + x.length != u.length + (x.length + (y.length + 1))) = true := by
        simp only [bne_iff_ne, ne_eq]; omega
      have herase : (u ++ (x ++ '.' :: y) ++ '.' :: r2).eraseIdx (u.length + x.length)
          = (u ++ x) ++ y ++ '.' :: r2 := by
        rw [hpath, ← List.length_append, eraseIdx_middle]
        simp [List.append_assoc]
      have hlast : size_sub (u.length + (x.length + (y.length + 1))) 1
          = (u ++ x).length + y.length := by
        rw [size_sub_of_le _ _ (by omega) (by norm_num; omega), List.length_append]
        omega
      have hux : '.' ∉ u ++ x := by
        intro hm
        rcases List.mem_append.1 hm with e | e
        · exact hu e
        · exact hx e
      have hrec := ih (u ++ x) y r2 hux hr2 (by omega)
        (by simp only [List.length_append, List.length_cons]; omega)
      unfold strip_loop
      simp only [List.length_append, List.length_cons, hpos, h1, h2, Bool.and_self, if_true,
        herase, hlast]
      rw [← List.length_append, hrec]
      simp [List.filter_append, filter_dots_of_not_mem x hx, List.append_assoc]
    · have hpos : str_find '.' (u ++ r1 ++ '.' :: r2) u.length = u.length + r1.length :=
        str_find_at '.' u r1 r2 hdot
      unfold strip_loop
      simp only [hpos, bne_self_eq_false, Bool.and_false, Bool.false_eq_true, if_false,
        filter_dots_of_not_mem r1 hdot]

theorem count_le_one_no_double (c : Char) (l : Str) (h : l.count c ≤ 1) :
    ¬ ([c, c] <:+: l) := by
  rintro ⟨s, t, rfl⟩
  simp [List.count_append] at h
  omega


/-- C18. For a captured path below the size limit of a string, the dot
stripping loop of the default handler ends and leaves the path with every
`'.'` removed except the last one, the other characters kept in order; so the
file name `"web/"` followed by the result holds at most one `'.'` and never
the text `".."`. -/
theorem strip_dots_keeps_last (p : Str) (hlen : p.length < npos) :
    ∃ q, strip_dots p = some q ∧
      (('.' ∉ p ∧ q = p) ∨
        (∃ a b, p = a ++ '.' :: b ∧ '.' ∉ b ∧
          q = a.filter (fun c => c != '.') ++ '.' :: b)) ∧
      q.filter (fun c => c != '.') = p.filter (fun c => c != '.') ∧
      ("web/".toList ++ q).count '.' ≤ 1 ∧
      ¬ (['.', '.'] <:+: "web/".toList ++ q) := by
  have hweb : ∀ q : Str, ("web/".toList ++ q).count '.' = q.count '.' := by
    intro q
    rw [List.count_append]
    have : "web/".toList.count '.' = 0 := by decide
    omega
  by_cases hdot : '.' ∈ p
  · obtain ⟨a, b, hab, hb⟩ := split_at_last '.' p hdot
    subst hab
    have hloop := strip_loop_spec ((a ++ '.' :: b).length + 1) [] a b (by simp) hb
      (by simp only [List.length_append, List.length_cons]; omega) (by simpa using hlen)
    have hq : strip_dots (a ++ '.' :: b)
        = some (a.filter (fun c => c != '.') ++ '.' :: b) := by
      unfold strip_dots
      rw [str_rfind_at '.' a b hb]
      simpa using hloop
    have hcount : (a.filter (fun c => c != '.') ++ '.' :: b).count '.' ≤ 1 := by
      rw [List.count_append, List.count_cons_self, List.count_eq_zero_of_not_mem hb,
        List.count_eq_zero_of_not_mem]
      intro hm
      have := (List.mem_filter.1 hm).2
      simp at this
    refine ⟨_, hq, Or.inr ⟨a, b, rfl, hb, rfl⟩, ?_, ?_, ?_⟩
    · simp [List.filter_append, List.filter_filter]
    · rw [hweb]; exact hcount
    · exact count_le_one_no_double '.' _ (by rw [hweb]; exact hcount)
  · have hq : strip_dots p = some p := by
      unfold strip_dots strip_loop
      have hf : str_find '.' p 0 = npos := by
        have := str_find_none '.' [] p hdot
        simpa using this
      simp [hf]
    have hcount : p.count '.' ≤ 1 := by
      rw [List.count_eq_zero_of_not_mem hdot]; omega
    refine ⟨p, hq, Or.inl ⟨hdot, rfl⟩, rfl, ?_, ?_⟩
    · rw [hweb]; exact hcount
    · exact count_le_one_no_double '.' _ (by rw [hweb]; exact hcount)

/-- C18, an instance: the path `../../etc/passwd` keeps its last dot only. -/
theorem strip_dots_keeps_last_witness :
    ∃ q, strip_dots "../../etc/passwd".toList = some q ∧
      ¬ (['.', '.'] <:+: "web/".toList ++ q) := by
  obtain ⟨q, h1, _, _, _, h5⟩ := strip_dots_keeps_last "../../etc/passwd".toList (by decide)
  exact ⟨q, h1, h5⟩


/-! ## The order of the route table -/

theorem char_eq_of_toNat_eq (a b : Char) (h : a.toNat = b.toNat) : a = b := by
  apply Char.ext
  apply UInt32.ext
  exact h

theorem str_lt_irrefl (a : Str) : str_lt a a = false := by
  induction a with
  | nil => rfl
  | cons x xs ih => simp [str_lt, ih]

theorem str_lt_trans :
    ∀ (a b c : Str), str_lt a b = true → str_lt b c = true → str_lt a c = true := by
  intro a
  induction a with
  | nil =>
    intro b c hab hbc
    cases b with
    | nil => simp [str_lt] at hab
    | cons y ys =>
      cases c with
      | nil => simp [str_lt] at hbc
      | cons z zs => rfl
  | cons x xs ih =>
    intro b c hab hbc
    cases b with
    | nil => simp [str_lt] at hab
    | cons y ys =>
      cases c with
      | nil => simp [str_lt] at hbc
      | cons z zs =>
        simp only [str_lt, Bool.or_eq_true, decide_eq_true_eq, Bool.and_eq_true,
          beq_iff_eq] at hab hbc ⊢
        rcases hab with h1 | ⟨h1, h1t⟩
        · rcases hbc with h2 | ⟨h2, _⟩
          · left; omega
          · left; rw [← h2]; exact h1
        · rcases hbc with h2 | ⟨h2, h2t⟩
          · left; rw [h1]; exact h2
          · right; exact ⟨h1.trans h2, ih ys zs h1t h2t⟩

theorem str_lt_total :
    ∀ (a b : Str), a ≠ b → str_lt a b = true ∨ str_lt b a = true := by
  intro a
  induction a with
  | nil =>
    intro b h
    cases b with
    | nil => exact absurd rfl h
    | cons y ys => left; rfl
  | cons x xs ih =>
    intro b h
    cases b with
    | nil => right; rfl
    | cons y ys =>
      simp only [str_lt, Bool.or_eq_true, decide_eq_true_eq, Bool.and_eq_true, beq_iff_eq]
      rcases Nat.lt_trichotomy x.toNat y.toNat with h1 | h1 | h1
      · left; left; exact h1
      · have hxy : x = y := char_eq_of_toNat_eq x y h1
        subst hxy
        have hne : xs ≠ ys := fun e => h (by rw [e])
        rcases ih ys hne with h2 | h2
        · left; right; exact ⟨rfl, h2⟩
        · right; right; exact ⟨rfl, h2⟩
      · right; left; exact h1

theorem str_lt_asymm (a b : Str) (h : str_lt a b = true) : str_lt b a = false := by
  cases hba : str_lt b a with
  | false => rfl
  | true =>
    have := str_lt_trans a b a h hba
    rw [str_lt_irrefl] at this
    simp at this

theorem mem_patterns_register (t : resource_type) (p m : Str) (h : Handler) (x : Str) :
    x ∈ patterns (register t p m h) ↔ x = p ∨ x ∈ patterns t := by
  induction t with
  | nil => simp [register, patterns]
  | cons e rest ih =>
    unfold register
    by_cases he : e.1 = p
    · simp only [he, if_true, patterns, List.map_cons, List.mem_cons]
      constructor
      · rintro (h1 | h1)
        · exact Or.inl h1
        · exact Or.inr (Or.inr h1)
      · rintro (h1 | h1 | h1)
        · exact Or.inl h1
        · exact Or.inl h1
        · exact Or.inr h1
    · by_cases hlt : str_lt p e.1 = true
      · simp [he, hlt, patterns]
      · have hlt2 : str_lt p e.1 = false := by simpa using hlt
        simp only [he, hlt2, if_false, Bool.false_eq_true, patterns, List.map_cons,
          List.mem_cons] at ih ⊢
        rw [ih]
        constructor
        · rintro (h1 | h1 | h1)
          · exact Or.inr (Or.inl h1)
          · exact Or.inl h1
          · exact Or.inr (Or.inr h1)
        · rintro (h1 | h1 | h1)
          · exact Or.inr (Or.inl h1)
          · exact Or.inl h1
          · exact Or.inr (Or.inr h1)

theorem sorted_patterns_register (t : resource_type) (p m : Str) (h : Handler)
    (hs : (patterns t).Pairwise (fun a b => str_lt a b = true)) :
    (patterns (register t p m h)).Pairwise (fun a b => str_lt a b = true) := by
  induction t with
  | nil => simp [register, patterns]
  | cons e rest ih =>
    have hs2 : (∀ b ∈ patterns rest, str_lt e.1 b = true) ∧
        (patterns rest).Pairwise (fun a b => str_lt a b = true) := by
      simpa [patterns] using hs
    unfold register
    by_cases he : e.1 = p
    · simpa [he, patterns] using hs
    · by_cases hlt : str_lt p e.1 = true
      · simp only [he, hlt, if_true, if_false, patterns, List.map_cons, List.pairwise_cons,
          List.mem_cons]
        refine ⟨?_, ?_, hs2.2⟩
        · rintro b (hb | hb)
          · rw [hb]; exact hlt
          · exact str_lt_trans p e.1 b hlt (hs2.1 b hb)
        · exact hs2.1
      · have hep : str_lt e.1 p = true := by
          rcases str_lt_total e.1 p he with h1 | h1
          · exact h1
          · exact absurd h1 hlt
        simp only [he, hlt, if_false]
        show (e.1 :: patterns (register rest p m h)).Pairwise _
        rw [List.pairwise_cons]
        refine ⟨?_, ih hs2.2⟩
        intro b hb
        rcases (mem_patterns_register rest p m h b).1 hb with h1 | h1
        · rw [h1]; exact hep
        · exact hs2.1 b h1

theorem register_all_foldl (regs : List (Str × Str × Handler)) :
    ∀ (t : resource_type), (patterns t).Pairwise (fun a b => str_lt a b = true) →
      (patterns (regs.foldl (fun t r => register t r.1 r.2.1 r.2.2) t)).Pairwise
          (fun a b => str_lt a b = true) ∧
      ∀ x, x ∈ patterns (regs.foldl (fun t r => register t r.1 r.2.1 r.2.2) t) ↔
        x ∈ patterns t ∨ x ∈ regs.map (fun r => r.1) := by
  induction regs with
  | nil => intro t hs; simp [hs]
  | cons r regs ih =>
    intro t hs
    have := ih (register t r.1 r.2.1 r.2.2) (sorted_patterns_register t _ _ _ hs)
    refine ⟨this.1, ?_⟩
    intro x
    simp only [List.foldl_cons, List.map_cons, List.mem_cons]
    rw [this.2 x, mem_patterns_register]
    constructor
    · rintro ((h1 | h1) | h1)
      · exact Or.inr (Or.inl h1)
      · exact Or.inl h1
      · exact Or.inr (Or.inr h1)
    · rintro (h1 | h1 | h1)
      · exact Or.inl (Or.inr h1)
      · exact Or.inl (Or.inl h1)
      · exact Or.inr h1

theorem sorted_register_all (regs : List (Str × Str × Handler)) :
    (patterns (register_all regs)).Pairwise (fun a b => str_lt a b = true) :=
  (register_all_foldl regs [] (by simp [patterns])).1

theorem mem_register_all (regs : List (Str × Str × Handler)) (x : Str) :
    x ∈ patterns (register_all regs) ↔ x ∈ regs.map (fun r => r.1) := by
  have := (register_all_foldl regs [] (by simp [patterns])).2 x
  simpa [patterns, register_all] using this

theorem nodup_of_sorted (l : List Str) (h : l.Pairwise (fun a b => str_lt a b = true)) :
    l.Nodup := by
  refine h.imp ?_
  intro a b hab e
  rw [e, str_lt_irrefl] at hab
  simp at hab

theorem sorted_unique (l1 l2 : List Str)
    (h1 : l1.Pairwise (fun a b => str_lt a b = true))
    (h2 : l2.Pairwise (fun a b => str_lt a b = true))
    (hm : ∀ x, x ∈ l1 ↔ x ∈ l2) : l1 = l2 := by
  have hp : l1.Perm l2 :=
    (List.perm_ext_iff_of_nodup (nodup_of_sorted l1 h1) (nodup_of_sorted l2 h2)).2 hm
  haveI : IsAntisymm Str (fun a b => str_lt a b = true) :=
    ⟨fun a b hab hba => by rw [str_lt_asymm a b hab] at hba; simp at hba⟩
  exact List.eq_of_perm_of_sorted hp h1 h2

theorem register_existing (t : resource_type) (p m : Str) (h : Handler)
    (hs : (patterns t).Pairwise (fun a b => str_lt a b = true)) (hp : p ∈ patterns t) :
    patterns (register t p m h) = patterns t ∧
    (register t p m h).length = t.length ∧
    ∀ q, (register t p m h).lookup q
      = if q = p then (t.lookup p).map (fun ms => method_assign ms m h) else t.lookup q := by
  induction t with
  | nil => simp [patterns] at hp
  | cons e rest ih =>
    have hs2 : (∀ b ∈ patterns rest, str_lt e.1 b = true) ∧
        (patterns rest).Pairwise (fun a b => str_lt a b = true) := by
      simpa [patterns] using hs
    unfold register
    by_cases he : e.1 = p
    · simp only [he, if_true]
      refine ⟨by simp [patterns, he], by simp, ?_⟩
      intro q
      obtain ⟨k, ms⟩ := e
      simp only at he
      subst he
      by_cases hq : q = k
      · subst hq
        simp [List.lookup]
      · have hb : (q == k) = false := by simpa using hq
        simp [List.lookup, hb, hq]
    · have hprest : p ∈ patterns rest := by
        have : p = e.1 ∨ p ∈ patterns rest := by simpa [patterns] using hp
        rcases this with h1 | h1
        · exact absurd h1.symm he
        · exact h1
      have hlt : ¬ str_lt p e.1 = true := by
        rw [str_lt_asymm e.1 p (hs2.1 p hprest)]
        simp
      obtain ⟨ih1, ih2, ih3⟩ := ih hs2.2 hprest
      simp only [he, hlt, if_false]
      refine ⟨?_, by simp [ih2], ?_⟩
      · show e.1 :: patterns (register rest p m h) = e.1 :: patterns rest
        rw [ih1]
      · intro q
        obtain ⟨k, ms⟩ := e
        simp only at he
        by_cases hq : q = k
        · subst hq
          have hqp : ¬ q = p := he
          simp [List.lookup, hqp]
        · have hb : (q == k) = false := by simpa using hq
          have hpk : (p == k) = false := by
            simpa using (fun e : p = k => he e.symm)
          simp only [List.lookup, hb, hpk]
          exact ih3 q

theorem lookup_method_assign (ms : List (Str × Handler)) (m : Str) (h : Handler) (n : Str) :
    (method_assign ms m h).lookup n = if n = m then some h else ms.lookup n := by
  unfold method_assign
  by_cases hnm : n = m
  · subst hnm
    simp [List.lookup]
  · have hbeq : (n == m) = false := by simpa using hnm
    simp only [List.lookup, hbeq, hnm, if_false]
    induction ms with
    | nil => rfl
    | cons e ms ih =>
      obtain ⟨a, b⟩ := e
      by_cases ham : a = m
      · subst ham
        simp [List.filter_cons, List.lookup, hbeq, ih]
      · have ham2 : (a != m) = true := by simpa using ham
        simp only [List.filter_cons, ham2, if_true, List.lookup]
        cases hna : n == a <;> simp [ih]


theorem length_register_all (regs : List (Str × Str × Handler)) :
    (register_all regs).length = (regs.map (fun r => r.1)).dedup.length := by
  have hn := nodup_of_sorted _ (sorted_register_all regs)
  have hp : (patterns (register_all regs)).Perm (regs.map (fun r => r.1)).dedup := by
    refine (List.perm_ext_iff_of_nodup hn (List.nodup_dedup _)).2 ?_
    intro x
    rw [mem_register_all, List.mem_dedup]
  have := hp.length_eq
  simpa [patterns] using this

theorem patterns_register_all_perm (regs regs2 : List (Str × Str × Handler))
    (hp : regs2.Perm regs) :
    patterns (register_all regs2) = patterns (register_all regs) := by
  apply sorted_unique _ _ (sorted_register_all regs2) (sorted_register_all regs)
  intro x
  rw [mem_register_all, mem_register_all]
  exact (hp.map _).mem_iff

/-- C17. With both maps filled by registrations, the search sequence of `start`
is the explicit map followed by the default map; in each part the patterns are
in ascending byte-wise lexicographic order, every registered pattern occurs
exactly once, and the order does not depend on the order of registration; the
length is the number of distinct explicit patterns plus that of distinct
default patterns; and registering under a pattern that a map already has
leaves the patterns as they are and gives the method to the entry of that
pattern. -/
theorem start_sequence_sorted (regs_explicit regs_default : List (Str × Str × Handler))
    (resource default_resource : resource_type)
    (hE : resource = register_all regs_explicit)
    (hD : default_resource = register_all regs_default) :
    patterns (start resource default_resource)
      = patterns resource ++ patterns default_resource ∧
    ((patterns resource).Pairwise (fun a b => str_lt a b = true) ∧
      (patterns default_resource).Pairwise (fun a b => str_lt a b = true)) ∧
    ((patterns resource).Nodup ∧ (patterns default_resource).Nodup) ∧
    (∀ x, (x ∈ patterns resource ↔ x ∈ regs_explicit.map (fun r => r.1)) ∧
      (x ∈ patterns default_resource ↔ x ∈ regs_default.map (fun r => r.1))) ∧
    (start resource default_resource).length
      = (regs_explicit.map (fun r => r.1)).dedup.length
        + (regs_default.map (fun r => r.1)).dedup.length ∧
    (∀ regs2 : List (Str × Str × Handler),
      (regs2.Perm regs_explicit → patterns (register_all regs2) = patterns resource) ∧
      (regs2.Perm regs_default → patterns (register_all regs2) = patterns default_resource)) ∧
    (∀ (t : resource_type) (p m : Str) (h : Handler),
      t = resource ∨ t = default_resource → p ∈ patterns t →
      patterns (register t p m h) = patterns t ∧
      (register t p m h).length = t.length ∧
      (∀ q, (register t p m h).lookup q
        = if q = p then (t.lookup p).map (fun ms => method_assign ms m h)
          else t.lookup q) ∧
      (∀ ms n, (method_assign ms m h).lookup n = if n = m then some h else ms.lookup n)) := by
  subst hE hD
  refine ⟨by simp [start, patterns], ⟨sorted_register_all _, sorted_register_all _⟩,
    ⟨nodup_of_sorted _ (sorted_register_all _), nodup_of_sorted _ (sorted_register_all _)⟩,
    fun x => ⟨mem_register_all _ x, mem_register_all _ x⟩, ?_, ?_, ?_⟩
  · simp [start, length_register_all]
  · intro regs2
    exact ⟨patterns_register_all_perm _ _, patterns_register_all_perm _ _⟩
  · intro t p m h ht hp
    have hs : (patterns t).Pairwise (fun a b => str_lt a b = true) := by
      rcases ht with rfl | rfl <;> exact sorted_register_all _
    obtain ⟨h1, h2, h3⟩ := register_existing t p m h hs hp
    exact ⟨h1, h2, h3, fun ms n => lookup_method_assign ms m h n⟩

/-- C17, an instance: the registrations of `start_server`, made in the order
`/string`, `/info`, `/match`, give the sequence `/info`, `/match`, `/string`,
then the default pattern. -/
theorem start_sequence_sorted_witness :
    patterns (start (handler_resource id) (handler_default_resource fun _ => none))
      = ["^/info/?$".toList, "^/match/([0-9a-zA-Z]+)/?$".toList, "^/string/?$".toList,
         "^/?(.*)$".toList] := by
  have h := (start_sequence_sorted _ _ (handler_resource id)
    (handler_default_resource fun _ => none) rfl rfl).1
  rw [h]
  decide


/-! ## The routes of `handler.hpp` -/

theorem handler_all_resources_eq (iter : HeaderMap → List (Str × Str))
    (fs : Str → Option Str) :
    handler_all_resources iter fs
      = [("^/info/?$".toList, [("GET".toList, info_handler iter)]),
         ("^/match/([0-9a-zA-Z]+)/?$".toList, [("GET".toList, match_handler)]),
         ("^/string/?$".toList, [("POST".toList, string_handler)]),
         ("^/?(.*)$".toList, [("GET".toList, default_handler fs)])] := by
  rfl

theorem sample_regex_info (s : Str) :
    sample_regex_match s "^/info/?$".toList = match_literal "/info".toList s := by
  unfold sample_regex_match
  rw [if_neg (by decide), if_pos rfl]

theorem sample_regex_match_pattern (s : Str) :
    sample_regex_match s "^/match/([0-9a-zA-Z]+)/?$".toList = match_match s := by
  unfold sample_regex_match
  rw [if_neg (by decide), if_neg (by decide), if_pos rfl]

theorem sample_regex_string (s : Str) :
    sample_regex_match s "^/string/?$".toList = match_literal "/string".toList s := by
  unfold sample_regex_match
  rw [if_pos rfl]


theorem match_prefix_literal : "/match/".toList = ['/', 'm', 'a', 't', 'c', 'h', '/'] := by
  decide

theorem match_match_token (s : Str) (hs : s ≠ []) (hal : ∀ c ∈ s, c.isAlphanum = true) :
    match_match ("/match/".toList ++ s) = some ["/match/".toList ++ s, s] ∧
    match_match ("/match/".toList ++ s ++ ['/'])
      = some ["/match/".toList ++ s ++ ['/'], s] := by
  have h1 : s.span Char.isAlphanum = (s, []) := span_all _ s hal
  have h2 : (s ++ ['/']).span Char.isAlphanum = (s, ['/']) :=
    span_append_cons _ s '/' [] hal (by decide)
  have hne : s.isEmpty = false := by
    cases s with
    | nil => exact absurd rfl hs
    | cons a t => rfl
  constructor
  · rw [match_prefix_literal]
    simp only [List.cons_append, List.nil_append, match_match, h1, hne]
    simp
  · rw [match_prefix_literal]
    simp only [List.cons_append, List.nil_append, match_match, h2, hne]
    simp

theorem match_literal_info_of_match (s : Str) :
    match_literal "/info".toList ("/match/".toList ++ s) = none ∧
    match_literal "/info".toList ("/match/".toList ++ s ++ ['/']) = none := by
  have h5 : "/info".toList = ['/', 'i', 'n', 'f', 'o'] := by decide
  rw [match_prefix_literal, h5]
  constructor <;> simp [match_literal]

/-- C11. For a non-empty `s` of ASCII letters and digits, `GET` on the path
`/match/s` or `/match/s/` against the routes of `handler.hpp` calls the handler
of the pattern `^/match/([0-9a-zA-Z]+)/?$` with sub-match 0 bound to the whole
path and sub-match 1 bound to `s`, and the handler writes the status line, the
decimal length of `s` and `s`. -/
theorem match_route_binds (lib : Lib) (iter : HeaderMap → List (Str × Str))
    (fs : Str → Option Str) (s path : Str) (request : Request) (write_ok : Bool)
    (hrm : lib.regex_match = sample_regex_match)
    (hs : s ≠ []) (hal : ∀ c ∈ s, c.isAlphanum = true)
    (hpath : path = "/match/".toList ++ s ∨ path = "/match/".toList ++ s ++ ['/'])
    (hm : request.method = "GET".toList) (hp : request.path = path) :
    respond lib (handler_all_resources iter fs) write_ok request
      = [Event.handler 1 { request with path_match := [path, s] },
         Event.async_write ("HTTP/1.1 200 OK\r\nContent-Length: ".toList
           ++ decimal s.length ++ "\r\n\r\n".toList ++ s)]
        ++ after_write lib { request with path_match := [path, s] } write_ok := by
  have hmatch : match_match path = some [path, s] := by
    rcases hpath with rfl | rfl
    · exact (match_match_token s hs hal).1
    · exact (match_match_token s hs hal).2
  have hinfo : match_literal "/info".toList path = none := by
    rcases hpath with rfl | rfl
    · exact (match_literal_info_of_match s).1
    · exact (match_literal_info_of_match s).2
  have h := respond_from_first lib request write_ok (handler_all_resources iter fs) 0 1
    (by rw [handler_all_resources_eq]; simp) [path, s] match_handler
    (by
      simp only [handler_all_resources_eq, List.getElem_cons_succ, List.getElem_cons_zero]
      rw [hrm, hp, sample_regex_match_pattern, hmatch])
    (by
      simp only [handler_all_resources_eq, List.getElem_cons_succ, List.getElem_cons_zero]
      rw [hm]
      rfl)
    (by
      intro j hj
      have hj0 : j = 0 := by omega
      subst hj0
      simp only [handler_all_resources_eq, List.getElem_cons_zero, eligible]
      rw [hrm, hp, sample_regex_info, hinfo]
      rfl)
  simpa [respond, match_handler, ok_response] using h

/-- C11, an instance: `GET /match/42` binds sub-match 1 to `42` and the handler
writes `42` with `Content-Length: 2`. -/
theorem match_route_binds_witness :
    respond sample_lib (handler_all_resources id fun _ => none) false
        (sample_request "GET".toList "/match/42".toList "1.1".toList)
      = [Event.handler 1
           { sample_request "GET".toList "/match/42".toList "1.1".toList with
             path_match := ["/match/42".toList, "42".toList] },
         Event.async_write "HTTP/1.1 200 OK\r\nContent-Length: 2\r\n\r\n42".toList] := by
  have h := match_route_binds sample_lib id (fun _ => none) "42".toList "/match/42".toList
    (sample_request "GET".toList "/match/42".toList "1.1".toList) false rfl (by decide)
    (by decide) (Or.inl (by decide)) rfl rfl
  refine Eq.trans h ?_
  decide


theorem first_routes_reject_string (path : Str)
    (hpath : path = "/string".toList ∨ path = "/string/".toList) :
    match_literal "/info".toList path = none ∧ match_match path = none ∧
    match_literal "/string".toList path = some [path] := by
  rcases hpath with rfl | rfl <;> decide

theorem first_routes_accept_info (path : Str)
    (hpath : path = "/info".toList ∨ path = "/info/".toList) :
    match_literal "/info".toList path = some [path] := by
  rcases hpath with rfl | rfl <;> decide

/-- C12, what the code does. A `POST` to `/string` or `/string/` whose content
stream yields the body `b` is answered with the status line, the decimal length
and the text of `b` without its leading white space: the handler reads the
body with `>>`, which skips leading white space, so that the response is the
echo of `b` only when `b` does not begin with white space. -/
theorem string_route_response (lib : Lib) (iter : HeaderMap → List (Str × Str))
    (fs : Str → Option Str) (b path : Str) (request : Request) (write_ok : Bool)
    (hrm : lib.regex_match = sample_regex_match)
    (hpath : path = "/string".toList ∨ path = "/string/".toList)
    (hm : request.method = "POST".toList) (hp : request.path = path)
    (hc : request.content = some b) :
    respond lib (handler_all_resources iter fs) write_ok request
      = [Event.handler 2 { request with path_match := [path] },
         Event.async_write ("HTTP/1.1 200 OK\r\nContent-Length: ".toList
           ++ decimal (b.dropWhile isspace).length ++ "\r\n\r\n".toList
           ++ b.dropWhile isspace)]
        ++ after_write lib { request with path_match := [path] } write_ok := by
  obtain ⟨hinfo, hmat, hstr⟩ := first_routes_reject_string path hpath
  have h := respond_from_first lib request write_ok (handler_all_resources iter fs) 0 2
    (by rw [handler_all_resources_eq]; simp) [path]
    string_handler
    (by
      simp only [handler_all_resources_eq, List.getElem_cons_succ, List.getElem_cons_zero]
      rw [hrm, hp, sample_regex_string, hstr])
    (by
      simp only [handler_all_resources_eq, List.getElem_cons_succ, List.getElem_cons_zero]
      rw [hm]
      rfl)
    (by
      intro j hj
      have hj0 : j = 0 ∨ j = 1 := by omega
      rcases hj0 with rfl | rfl
      · simp only [handler_all_resources_eq, List.getElem_cons_zero, eligible]
        rw [hrm, hp, sample_regex_info, hinfo]
        rfl
      · simp only [handler_all_resources_eq, List.getElem_cons_succ, List.getElem_cons_zero,
          eligible]
        rw [hrm, hp, sample_regex_match_pattern, hmat]
        rfl)
  simpa [respond, string_handler, hc, ok_response, extract_to_buffer] using h

/-- C12, the failing input: `POST /string` with `Content-Length: 3` and the body
` hi`; the response carries `Content-Length: 2` and `hi`. -/
theorem string_route_response_witness :
    respond sample_lib (handler_all_resources id fun _ => none) false
        { sample_request "POST".toList "/string".toList "1.1".toList with
          content := some " hi".toList,
          header := [("Content-Length".toList, "3".toList)] }
      = [Event.handler 2
           { sample_request "POST".toList "/string".toList "1.1".toList with
             content := some " hi".toList,
             header := [("Content-Length".toList, "3".toList)],
             path_match := ["/string".toList] },
         Event.async_write "HTTP/1.1 200 OK\r\nContent-Length: 2\r\n\r\nhi".toList] := by
  have h := string_route_response sample_lib id (fun _ => none) " hi".toList
    "/string".toList
    { sample_request "POST".toList "/string".toList "1.1".toList with
      content := some " hi".toList,
      header := [("Content-Length".toList, "3".toList)] }
    false rfl (Or.inl rfl) rfl rfl rfl
  refine Eq.trans h ?_
  decide

/-- The failing input of C12 on the wire: the whole cycle for the bytes
`POST /string HTTP/1.1`, `Content-Length: 3`, blank line and body ` hi`, one
body byte having arrived with the header block. -/
theorem string_route_cycle_example :
    process_request_and_respond sample_lib (handler_all_resources id fun _ => none)
        { read_until := some ("POST /string HTTP/1.1\r\nContent-Length: 3\r\n\r\n ".toList, 44),
          pending := "hi".toList, write_ok := false }
      = [Event.async_read 2,
         Event.handler 2
           { method := "POST".toList, path := "/string".toList, http_version := "1.1".toList,
             content := some " hi".toList,
             header := [("Content-Length".toList, "3".toList)],
             path_match := ["/string".toList] },
         Event.async_write "HTTP/1.1 200 OK\r\nContent-Length: 2\r\n\r\nhi".toList] := by
  decide

/-- The `/string` handler on a request without `Content-Length`: `content` is a
null pointer at the dispatch, the handler dereferences it, and nothing is
written and no new cycle is started. -/
theorem string_route_null_content :
    process_request_and_respond sample_lib (handler_all_resources id fun _ => none)
        { read_until := some ("POST /string HTTP/1.1\r\n\r\n".toList, 25),
          pending := [], write_ok := true }
      = [Event.handler 2
           { method := "POST".toList, path := "/string".toList, http_version := "1.1".toList,
             content := none, header := [], path_match := ["/string".toList] },
         Event.handler_undefined] := by
  decide

theorem infix_flatten_of_mem (x : Str) (L : List Str) (h : x ∈ L) : x <:+: L.flatten := by
  induction L with
  | nil => simp at h
  | cons y L ih =>
    rcases List.mem_cons.1 h with rfl | h2
    · exact ⟨[], L.flatten, by simp⟩
    · obtain ⟨s, t, hst⟩ := ih h2
      exact ⟨y ++ s, t, by simp [← hst, List.append_assoc]⟩

/-- C13. For a `GET` request to `/info` or `/info/`, whatever the order in which
the header map is visited, the `/info` handler writes the status line, the
decimal length `L` of the body and the body; the body is the request line text
followed by one piece `name: value<br>` for each entry of the header map, each
entry giving exactly one piece, and `L` is the length of the body. -/
theorem info_route_response (lib : Lib) (iter : HeaderMap → List (Str × Str))
    (fs : Str → Option Str) (path : Str) (request : Request) (write_ok : Bool)
    (hrm : lib.regex_match = sample_regex_match)
    (hiter : ∀ h, (iter h).Perm h)
    (hpath : path = "/info".toList ∨ path = "/info/".toList)
    (hm : request.method = "GET".toList) (hp : request.path = path) :
    respond lib (handler_all_resources iter fs) write_ok request
      = [Event.handler 0 { request with path_match := [path] },
         Event.async_write ("HTTP/1.1 200 OK\r\nContent-Length: ".toList
           ++ decimal (info_body request (iter request.header)).length
           ++ "\r\n\r\n".toList ++ info_body request (iter request.header))]
        ++ after_write lib { request with path_match := [path] } write_ok ∧
    info_body request (iter request.header)
      = "<h1>Request:</h1>".toList ++ request.method ++ " ".toList ++ request.path
        ++ " HTTP/".toList ++ request.http_version ++ "<br>".toList
        ++ ((iter request.header).map
            fun e => e.1 ++ ": ".toList ++ e.2 ++ "<br>".toList).flatten ∧
    (iter request.header).Perm request.header ∧
    (∀ e ∈ request.header,
      (e.1 ++ ": ".toList ++ e.2 ++ "<br>".toList)
        <:+: info_body request (iter request.header)) := by
  have hinfo := first_routes_accept_info path hpath
  have h := respond_from_first lib request write_ok (handler_all_resources iter fs) 0 0
    (by rw [handler_all_resources_eq]; simp) [path] (info_handler iter)
    (by
      simp only [handler_all_resources_eq, List.getElem_cons_zero]
      rw [hrm, hp, sample_regex_info, hinfo])
    (by
      simp only [handler_all_resources_eq, List.getElem_cons_zero]
      rw [hm]
      rfl)
    (by intro j hj; omega)
  refine ⟨?_, rfl, hiter _, ?_⟩
  · simpa [respond, info_handler, ok_response, info_body] using h
  · intro e he
    have hmem : e ∈ iter request.header := (hiter request.header).mem_iff.2 he
    have hseg : (e.1 ++ ": ".toList ++ e.2 ++ "<br>".toList)
        ∈ (iter request.header).map fun e => e.1 ++ ": ".toList ++ e.2 ++ "<br>".toList :=
      List.mem_map.2 ⟨e, hmem, rfl⟩
    obtain ⟨s, t, hst⟩ := infix_flatten_of_mem _ _ hseg
    refine ⟨"<h1>Request:</h1>".toList ++ request.method ++ " ".toList ++ request.path
        ++ " HTTP/".toList ++ request.http_version ++ "<br>".toList ++ s, t, ?_⟩
    rw [info_body, ← hst]
    simp only [List.append_assoc]

/-- C13, an instance: `GET /info` with the header `X-Test: 1`. -/
theorem info_route_response_witness :
    respond sample_lib (handler_all_resources id fun _ => none) false
        { sample_request "GET".toList "/info".toList "1.1".toList with
          header := [("X-Test".toList, "1".toList)] }
      = [Event.handler 0
           { sample_request "GET".toList "/info".toList "1.1".toList with
             header := [("X-Test".toList, "1".toList)],
             path_match := ["/info".toList] },
         Event.async_write
           ("HTTP/1.1 200 OK\r\nContent-Length: 52\r\n\r\n".toList
             ++ "<h1>Request:</h1>GET /info HTTP/1.1<br>X-Test: 1<br>".toList)] := by
  have h := (info_route_response sample_lib id (fun _ => none) "/info".toList
    { sample_request "GET".toList "/info".toList "1.1".toList with
      header := [("X-Test".toList, "1".toList)] }
    false rfl (fun _ => List.Perm.refl _) (Or.inl rfl) rfl rfl).1
  refine Eq.trans h ?_
  decide


/-! ## Line ends other than CR LF -/

theorem getline_lf (raw rest line0 : Str) (hraw : '\n' ∉ raw) :
    getline { data := raw ++ '\n' :: rest, good := true } line0
      = ({ data := rest, good := true }, raw) := by
  have hsp : (raw ++ '\n' :: rest).span (fun c => c != '\n') = (raw, '\n' :: rest) := by
    apply span_append_cons
    · intro c hc
      have : c ≠ '\n' := fun e => hraw (e ▸ hc)
      simpa using this
    · decide
  simp only [getline, if_true, hsp]

/-- C14, what the code does. A first line `M SP P SP HTTP/V c` that is ended by a
bare LF, and followed by the blank line, is matched without its last content
character `c`: `parse_request` returns the version `V`, not `V c`, because
`pop_back` removes one character after `getline` whatever it is. -/
theorem bare_lf_drops_character (M P V tail : Str) (c : Char)
    (hM : ' ' ∉ M ∧ '\n' ∉ M) (hP : ' ' ∉ P ∧ '\n' ∉ P) (hV : ' ' ∉ V ∧ '\n' ∉ V)
    (hc : c ≠ '\n') :
    parse_request
        { data := (M ++ ' ' :: (P ++ " HTTP/".toList ++ V)) ++ c :: '\n' :: (CRLF ++ tail),
          good := true }
      = .ok ({ method := M, path := P, http_version := V, content := none, header := [],
               path_match := [] },
             { data := tail, good := true }) := by
  have hform : RequestLineForm (M ++ ' ' :: (P ++ " HTTP/".toList ++ V)) M P V :=
    ⟨hM.1, hP.1, hV.1, rfl⟩
  have hm := match_request_line_of_form _ M P V hform
  have hraw : '\n' ∉ (M ++ ' ' :: (P ++ " HTTP/".toList ++ V)) ++ [c] := by
    have h5 : '\n' ∉ " HTTP/".toList := by decide
    intro hmem
    simp only [List.mem_append, List.mem_cons, List.mem_singleton] at hmem
    rcases hmem with (h | h | (h | h) | h) | h
    · exact hM.2 h
    · exact absurd h (by decide)
    · exact hP.2 h
    · exact h5 h
    · exact hV.2 h
    · rcases h with h | h
      · exact hc h.symm
      · simp at h
  have hdata : (M ++ ' ' :: (P ++ " HTTP/".toList ++ V)) ++ c :: '\n' :: (CRLF ++ tail)
      = ((M ++ ' ' :: (P ++ " HTTP/".toList ++ V)) ++ [c]) ++ '\n' :: (CRLF ++ tail) := by
    simp [List.append_assoc]
  have hblank := parse_headers_lines [] (((M ++ ' ' :: (P ++ " HTTP/".toList ++ V)) ++ c ::
      '\n' :: (CRLF ++ tail)).length + 2)
    { Request.empty with method := M, path := P, http_version := V }
    (M ++ ' ' :: (P ++ " HTTP/".toList ++ V)) [] tail (by simp) (by simp) (by decide)
    (by simp)
  simp only [wire_lines, List.nil_append] at hblank
  unfold parse_request
  simp only []
  rw [hdata, getline_lf _ _ [] hraw, pop_back_concat]
  simp only [hm]
  rw [← hdata, hblank]
  rfl

/-- C14, the failing input: `GET /info HTTP/1.1` ended by a bare LF; the request
gets the version `1.` instead of `1.1`. -/
theorem bare_lf_drops_character_witness :
    parse_request { data := "GET /info HTTP/1.1\n\r\n\r\n".toList, good := true }
      = .ok ({ method := "GET".toList, path := "/info".toList, http_version := "1.".toList,
               content := none, header := [], path_match := [] },
             { data := "\r\n".toList, good := true }) :=
  bare_lf_drops_character "GET".toList "/info".toList "1.".toList "\r\n".toList '1'
    (by decide) (by decide) (by decide) (by decide)

/-- C15, what the code does. A stream that begins with LF gives `getline` an
empty first line, on which `parse_request` calls `pop_back`, whatever follows,
a header terminator included; the same happens in the header loop on an empty
line ended by a bare LF. -/
theorem pop_back_on_empty_line (rest : Str) (lib : Lib) (rs : List Route) (bt : Nat)
    (pending : Str) (write_ok : Bool) :
    parse_request { data := '\n' :: rest, good := true } = .error .pop_back_empty ∧
    process_request_and_respond lib rs
        { read_until := some ('\n' :: rest, bt), pending := pending, write_ok := write_ok }
      = [Event.undefined] ∧
    parse_request { data := "\n\r\n\r\n".toList, good := true } = .error .pop_back_empty ∧
    parse_request { data := "GET / HTTP/1.1\r\nHost: a\r\n\n\r\n\r\n".toList, good := true }
      = .error .pop_back_empty := by
  have h1 : parse_request { data := '\n' :: rest, good := true } = .error .pop_back_empty := by
    have hg := getline_lf [] rest [] (by simp)
    simp only [List.nil_append] at hg
    unfold parse_request
    simp only [hg]
    rfl
  refine ⟨h1, ?_, rfl, rfl⟩
  unfold process_request_and_respond
  simp only [h1]


/-! ## How far `parse_request` reads -/

theorem terminator_ahead_suffix (d post : Str) (h : terminator_ahead d post) :
    ∃ u, d = u ++ post := by
  rcases h with h | ⟨a, h⟩
  · exact ⟨CRLF, h⟩
  · exact ⟨a ++ CRLF ++ CRLF, by rw [h]; simp [List.append_assoc]⟩

theorem getline_terminator_ahead (d post line0 : Str) (h : terminator_ahead d post) :
    ∃ d2 line, getline { data := d, good := true } line0 = ({ data := d2, good := true }, line) ∧
      ((line = ['\r'] ∧ d2 = post) ∨ terminator_ahead d2 post) := by
  rcases h with h | ⟨a, h⟩
  · refine ⟨post, ['\r'], ?_, Or.inl ⟨rfl, rfl⟩⟩
    have := getline_crlf [] post line0 (by simp)
    rw [h]
    simpa using this
  · by_cases hn : '\n' ∈ a
    · obtain ⟨x, y, hxy, hx⟩ := split_at_first '\n' a hn
      refine ⟨y ++ (CRLF ++ (CRLF ++ post)), x, ?_, Or.inr (Or.inr ⟨y, rfl⟩)⟩
      have := getline_lf x (y ++ (CRLF ++ (CRLF ++ post))) line0 hx
      rw [h, hxy]
      simpa [List.append_assoc] using this
    · refine ⟨CRLF ++ post, a ++ ['\r'], ?_, Or.inr (Or.inl rfl)⟩
      have := getline_crlf a (CRLF ++ post) line0 hn
      rw [h]
      simpa [List.append_assoc] using this

theorem parse_headers_stops :
    ∀ (fuel : Nat) (d post line0 : Str) (request r : Request) (s : IStream),
      terminator_ahead d post →
      parse_headers fuel { data := d, good := true } line0 request = .ok (r, s) →
      ∃ u, s.data = u ++ post := by
  intro fuel
  induction fuel with
  | zero => intro d post line0 request r s _ h; simp [parse_headers] at h
  | succ f ih =>
    intro d post line0 request r s hd h
    obtain ⟨d2, line, hg, hcase⟩ := getline_terminator_ahead d post line0 hd
    unfold parse_headers at h
    rw [hg] at h
    simp only at h
    cases hp : pop_back line with
    | none => rw [hp] at h; simp at h
    | some line2 =>
      rw [hp] at h
      simp only at h
      cases hmh : match_header_line line2 with
      | none =>
        rw [hmh] at h
        simp only [Except.ok.injEq, Prod.mk.injEq] at h
        rw [← h.2]
        rcases hcase with ⟨_, h2⟩ | h2
        · exact ⟨[], by simp [h2]⟩
        · exact terminator_ahead_suffix d2 post h2
      | some nv =>
        rw [hmh] at h
        obtain ⟨name, value⟩ := nv
        simp only at h
        rcases hcase with ⟨hl, _⟩ | h2
        · rw [hl] at hp
          have hp2 : line2 = [] := by
            simp [pop_back] at hp
            exact hp
          rw [hp2] at hmh
          have : match_header_line [] = none := by decide
          rw [this] at hmh
          simp at hmh
        · exact ih d2 post line2 _ r s h2 h

theorem parse_request_stops (pre post : Str) (r : Request) (s : IStream)
    (h : parse_request { data := pre ++ (CRLF ++ (CRLF ++ post)), good := true } = .ok (r, s)) :
    ∃ u, s.data = u ++ post := by
  obtain ⟨d2, line, hg, hcase⟩ :=
    getline_terminator_ahead (pre ++ (CRLF ++ (CRLF ++ post))) post [] (Or.inr ⟨pre, rfl⟩)
  unfold parse_request at h
  rw [hg] at h
  simp only at h
  cases hp : pop_back line with
  | none => rw [hp] at h; simp at h
  | some line2 =>
    rw [hp] at h
    simp only at h
    cases hmr : match_request_line line2 with
    | none =>
      rw [hmr] at h
      simp only [Except.ok.injEq, Prod.mk.injEq] at h
      rw [← h.2]
      rcases hcase with ⟨_, h2⟩ | h2
      · exact ⟨[], by simp [h2]⟩
      · exact terminator_ahead_suffix d2 post h2
    | some mpv =>
      rw [hmr] at h
      obtain ⟨m, p, v⟩ := mpv
      simp only at h
      rcases hcase with ⟨hl, _⟩ | h2
      · rw [hl] at hp
        have hp2 : line2 = [] := by
          simp [pop_back] at hp
          exact hp
        rw [hp2] at hmr
        have : match_request_line [] = none := by decide
        rw [this] at hmr
        simp at hmr
      · exact parse_headers_stops _ d2 post line2 _ r s h2 h

/-- C16. On a stream that holds the header terminator, followed by `post`,
`parse_request` ends (the loop never uses up its rounds) and, when it returns,
leaves `post` unread, for every occurrence of the terminator and so for the
first; and when the request line matches and every line up to the blank line
is a header line, it returns with exactly `post` unread, the blank line then
being the first occurrence of the terminator. -/
theorem parse_request_reads_to_terminator (pre post : Str) :
    parse_request { data := pre ++ (CRLF ++ (CRLF ++ post)), good := true } ≠ .error .fuel ∧
    (∀ r s, parse_request { data := pre ++ (CRLF ++ (CRLF ++ post)), good := true }
        = .ok (r, s) → ∃ u, s.data = u ++ post) ∧
    (∀ (line M P V : Str) (hs : List Str),
      '\n' ∉ line → match_request_line line = some (M, P, V) →
      (∀ l ∈ hs, '\n' ∉ l ∧ (match_header_line l).isSome = true) →
      pre ++ CRLF = line ++ CRLF ++ wire_lines hs →
      (∃ r, parse_request { data := pre ++ (CRLF ++ (CRLF ++ post)), good := true }
          = .ok (r, { data := post, good := true })) ∧
      (∀ pre2 post2, pre ++ (CRLF ++ (CRLF ++ post)) = pre2 ++ (CRLF ++ (CRLF ++ post2)) →
        post2.length ≤ post.length)) := by
  refine ⟨parse_request_terminates _, fun r s h => parse_request_stops pre post r s h, ?_⟩
  intro line M P V hs hline hm hhs hpre
  have hshape : pre ++ (CRLF ++ (CRLF ++ post))
      = line ++ CRLF ++ (wire_lines hs ++ ([] ++ CRLF ++ post)) := by
    have : pre ++ (CRLF ++ (CRLF ++ post)) = (pre ++ CRLF) ++ (CRLF ++ post) := by
      simp [List.append_assoc]
    rw [this, hpre]
    simp [List.append_assoc]
  have hparse := parse_request_of_match line M P V hs [] post hline hm hhs (by simp) (by decide)
  rw [← hshape] at hparse
  refine ⟨⟨_, hparse⟩, ?_⟩
  intro pre2 post2 heq
  rw [heq] at hparse
  obtain ⟨u, hu⟩ := parse_request_stops pre2 post2 _ _ hparse
  simp only at hu
  rw [hu, List.length_append]
  omega

/-- C16, an instance: a request with one header line and two body bytes behind
the terminator; exactly the two bytes stay unread. -/
theorem parse_request_reads_to_terminator_witness :
    ∃ r, parse_request
        { data := "GET / HTTP/1.1\r\nHost: a".toList ++ (CRLF ++ (CRLF ++ "he".toList)),
          good := true } = .ok (r, { data := "he".toList, good := true }) :=
  ((parse_request_reads_to_terminator "GET / HTTP/1.1\r\nHost: a".toList "he".toList).2.2
    "GET / HTTP/1.1".toList "GET".toList "/".toList "1.1".toList ["Host: a".toList]
    (by decide) (by decide) (by decide) (by decide)).1

/-- C19. For a first line, ended by CR LF, that has not the form of a request
line, `parse_request` returns the empty request, its header map empty and the
lines that follow unread, whatever they are; the cycle then issues no body
read, and a handler that is called sees no header and no content. -/
theorem malformed_line_skips_headers (lib : Lib) (rs : List Route)
    (line rest pending : Str) (bt : Nat) (write_ok : Bool)
    (hline : '\n' ∉ line) (hform : ¬ ∃ M P V, RequestLineForm line M P V) :
    (∃ r s, parse_request { data := line ++ CRLF ++ rest, good := true } = .ok (r, s) ∧
      r.header = [] ∧ r.content = none ∧ s.data = rest) ∧
    process_request_and_respond lib rs
        { read_until := some (line ++ CRLF ++ rest, bt), pending := pending,
          write_ok := write_ok }
      = respond lib rs write_ok Request.empty ∧
    (∀ n, Event.async_read n ∉ process_request_and_respond lib rs
        { read_until := some (line ++ CRLF ++ rest, bt), pending := pending,
          write_ok := write_ok }) ∧
    (∀ i q, Event.handler i q ∈ process_request_and_respond lib rs
        { read_until := some (line ++ CRLF ++ rest, bt), pending := pending,
          write_ok := write_ok } → q.header = [] ∧ q.content = none) := by
  have hm : match_request_line line = none := by
    cases hmm : match_request_line line with
    | none => rfl
    | some mpv =>
      obtain ⟨M, P, V⟩ := mpv
      exact absurd ⟨M, P, V, form_of_match_request_line line M P V hmm⟩ hform
  have hp := parse_request_of_no_match line rest hline hm
  have hcycle : process_request_and_respond lib rs
      { read_until := some (line ++ CRLF ++ rest, bt), pending := pending,
        write_ok := write_ok } = respond lib rs write_ok Request.empty := by
    unfold process_request_and_respond
    simp only [hp]
    have hc : ¬ (0 < HeaderMap.count Request.empty.header "Content-Length".toList) := by
      decide
    simp only [gt_iff_lt, hc, if_false]
  refine ⟨⟨_, _, hp, rfl, rfl, rfl⟩, hcycle, ?_, ?_⟩
  · intro n hmem
    rw [hcycle] at hmem
    rcases respond_events lib rs _ _ _ hmem with ⟨i, sm, h⟩ | ⟨b, h⟩ | h | h | h <;> simp at h
  · intro i q hmem
    rw [hcycle] at hmem
    rcases respond_events lib rs _ _ _ hmem with ⟨j, sm, h⟩ | ⟨b, h⟩ | h | h
    · simp only [Event.handler.injEq] at h
      rw [h.2]
      exact ⟨rfl, rfl⟩
    · simp at h
    · simp at h
    · simp at h

/-- C19, an instance: the first line `BAD` followed by a `Content-Length` line
and a body; the default route of `handler.hpp` is not called, no body read is
issued. -/
theorem malformed_line_skips_headers_witness :
    process_request_and_respond sample_lib (handler_all_resources id fun _ => none)
        { read_until := some ("BAD".toList ++ CRLF ++ "Content-Length: 5\r\n\r\nhello".toList, 28),
          pending := [], write_ok := true }
      = respond sample_lib (handler_all_resources id fun _ => none) true Request.empty :=
  (malformed_line_skips_headers sample_lib _ "BAD".toList
    "Content-Length: 5\r\n\r\nhello".toList [] 28 true (by decide)
    (by
      rintro ⟨M, P, V, h⟩
      have h1 := match_request_line_of_form _ M P V h
      have h2 : match_request_line "BAD".toList = none := by decide
      rw [h2] at h1
      simp at h1)).2.1


end Myweb
